import Mathlib

/-!
Verification of the `localcache` library (a partitioned, keyed, file-based
cache with atomic publish via symlink rename) against its specification.

The development is a shallow embedding of `localcache.go` plus the clock shim:

* Go strings/path helpers (`strings.HasPrefix`, `strings.TrimSuffix`,
  `strings.TrimPrefix`, `filepath.Ext`, `filepath.Base`, `filepath.Join`)
  are reimplemented over `String`.  `filepath.Join` is modelled as
  separator-concatenation, which is faithful for components that contain no
  path separator and are not `.`/`..` (all names the cache produces are
  hex digests and hex timestamps).
* `crypto/sha256` is implemented in full (bytes are `Nat`s below 256).
  The UTF-8 encoding of a key is modelled by `Char.toNat % 256`, which is
  exact for ASCII keys.
* The filesystem is an association list from absolute path strings to nodes
  (regular file with byte content, directory, or symlink).  `os.Stat` and
  `os.Open` follow symlink chains with bounded fuel; `os.Remove`,
  `os.Symlink`, `os.Rename`, `os.RemoveAll`, `os.Mkdir`, `os.Create` and
  `filepath.Glob` (which sorts lexically) are modelled accordingly.
* The package-global `clock` is threaded through explicitly as part of the
  machine state.  `Clock.now` adds a fixed per-read increment `step` before
  returning, exactly like the repository's `fakeClock` (the real clock is a
  special case for the properties proved here, which quantify over `cur`
  and `step`).
* Go functions returning `(value, error)` become functions into `Out α`;
  run-time panics (the explicit `panic` in `Transaction.path` and the
  slice-bounds panic of `string(t)[:2]` on tokens shorter than two bytes)
  are a separate `Out.panics` constructor.

Each cache operation (`Commit`, `Rollback`, `Mkdir`, `Create`, `WriteFile`,
`CreateOrRead`, `Remove`, `IfExists`, `Open`, `ReadFile`, `PurgeKey`,
`Purge`, `removeEntry`, `pathForKey`, `hash`) is translated line by line
from `localcache.go`, preserving the order of filesystem and clock effects.
-/

set_option autoImplicit false
set_option maxRecDepth 8000

namespace Localcache

/-! ## Go string and path helpers -/

/-- Utility: `p` is a leading segment of `s` (char-by-char). -/
def listLead : List Char → List Char → Bool
  | [], _ => true
  | c :: cs, d :: ds => c == d && listLead cs ds
  | _ :: _, [] => false

/-- Models `strings.HasPrefix s pre`. -/
def strHasPre (s pre : String) : Bool := listLead pre.data s.data

/-- Models `strings.TrimSuffix s suf`. -/
def strTrimSuf (s suf : String) : String :=
  if listLead suf.data.reverse s.data.reverse then
    String.mk (s.data.take (s.data.length - suf.data.length))
  else s

/-- Models `strings.TrimPrefix s pre`. -/
def strTrimPre (s pre : String) : String :=
  if listLead pre.data s.data then String.mk (s.data.drop pre.data.length) else s

/-- Models the Go byte-slice `s[:n]` for ASCII strings. -/
def strTake (s : String) (n : Nat) : String := String.mk (s.data.take n)

/-- Models `filepath.Join a b` for clean components (no separator, not `.`/`..`). -/
def pjoin (a b : String) : String := a ++ "/" ++ b

/-- Models `filepath.Join a b c` for clean components. -/
def pjoin3 (a b c : String) : String := a ++ "/" ++ b ++ "/" ++ c

/-- Scan (over the reversed path) for the extension: stop at a separator,
return everything from the last dot of the final element. Mirrors the
backwards loop of Go's `filepath.Ext`. -/
def extFrom : List Char → List Char → Option (List Char)
  | _, [] => none
  | acc, c :: rest =>
    if c == '/' then none
    else if c == '.' then some (c :: acc)
    else extFrom (c :: acc) rest

/-- Models `filepath.Ext`. -/
def goExt (s : String) : String :=
  match extFrom [] s.data.reverse with
  | none => ""
  | some l => String.mk l

/-- Scan (over the reversed path) for the final path element. -/
def baseFrom : List Char → List Char → List Char
  | acc, [] => acc
  | acc, c :: rest => if c == '/' then acc else baseFrom (c :: acc) rest

/-- Models `filepath.Base` for nonempty paths without trailing separator. -/
def baseOf (s : String) : String := String.mk (baseFrom [] s.data.reverse)

/-- Drop the final path element together with its separator (reversed input). -/
def dropTail : List Char → List Char
  | [] => []
  | c :: rest => if c == '/' then rest else dropTail rest

/-- Parent directory of a path (used for the existence checks of `os.Create`,
`os.Mkdir` and `os.Symlink`). -/
def parentOf (s : String) : String := String.mk (dropTail s.data.reverse).reverse

/-! ## Hex parsing and formatting -/

/-- Hex-digit test, as accepted by `fmt.Sscanf` with verb `%x`. -/
def isHexDigitB (c : Char) : Bool :=
  ('0' ≤ c && c ≤ '9') || ('a' ≤ c && c ≤ 'f') || ('A' ≤ c && c ≤ 'F')

/-- Value of a hex digit. -/
def hexVal (c : Char) : Nat :=
  if '0' ≤ c && c ≤ '9' then c.toNat - 48
  else if 'a' ≤ c && c ≤ 'f' then c.toNat - 87
  else c.toNat - 55

/-- Models `fmt.Sscanf(s, "%x", &ts)` into an `int64`: parse a maximal
nonempty run of leading hex digits; fail when there is none or the value
overflows `int64` (trailing non-hex input is ignored, as `Sscanf` does). -/
def scanHex (s : String) : Option Nat :=
  let ds := s.data.takeWhile isHexDigitB
  if ds.isEmpty then none
  else
    let v := ds.foldl (fun a c => 16 * a + hexVal c) 0
    if v < 2 ^ 63 then some v else none

/-- Lowercase hex digit character. -/
def hexChar (n : Nat) : Char :=
  if n < 10 then Char.ofNat (48 + n) else Char.ofNat (87 + n)

/-- Accumulator loop of the minimal-width lowercase hex rendering (fuelled
so that it evaluates by structural recursion; the initial fuel `n + 1`
always suffices because the argument shrinks by a factor of 16). -/
def natHexAux : Nat → Nat → List Char → List Char
  | 0, _, acc => acc
  | fuel + 1, n, acc =>
    if n < 16 then hexChar n :: acc
    else natHexAux fuel (n / 16) (hexChar (n % 16) :: acc)

/-- Models `fmt.Sprintf("%x", n)` for a nonnegative integer. -/
def natHex (n : Nat) : String := String.mk (natHexAux (n + 1) n [])

/-- Models `fmt.Sprintf("%x", i)` for an `int64`. -/
def intHex (i : Int) : String :=
  if i < 0 then "-" ++ natHex (-i).toNat else natHex i.toNat

/-! ## SHA-256 (translated from the algorithm used by `crypto/sha256`) -/

/-- Truncation to a 32-bit word. -/
def w32 (x : Nat) : Nat := x % 2 ^ 32

/-- Right rotation of a 32-bit word. -/
def rotr (n x : Nat) : Nat := w32 ((x >>> n) ||| (x <<< (32 - n)))

/-- SHA-256 round constants. -/
def shaK : List Nat :=
  [1116352408, 1899447441, 3049323471, 3921009573, 961987163, 1508970993,
   2453635748, 2870763221, 3624381080, 310598401, 607225278, 1426881987,
   1925078388, 2162078206, 2614888103, 3248222580, 3835390401, 4022224774,
   264347078, 604807628, 770255983, 1249150122, 1555081692, 1996064986,
   2554220882, 2821834349, 2952996808, 3210313671, 3336571891, 3584528711,
   113926993, 338241895, 666307205, 773529912, 1294757372, 1396182291,
   1695183700, 1986661051, 2177026350, 2456956037, 2730485921, 2820302411,
   3259730800, 3345764771, 3516065817, 3600352804, 4094571909, 275423344,
   430227734, 506948616, 659060556, 883997877, 958139571, 1322822218,
   1537002063, 1747873779, 1955562222, 2024104815, 2227730452, 2361852424,
   2428436474, 2756734187, 3204031479, 3329325298]

/-- SHA-256 compression state (eight 32-bit registers). -/
structure Regs where
  a : Nat
  b : Nat
  c : Nat
  d : Nat
  e : Nat
  f : Nat
  g : Nat
  h : Nat
deriving DecidableEq, Repr

/-- SHA-256 initial state. -/
def shaInit : Regs :=
  ⟨1779033703, 3144134277, 1013904242, 2773480762,
   1359893119, 2600822924, 528734635, 1541459225⟩

/-- Big sigma-0. -/
def bSig0 (x : Nat) : Nat := rotr 2 x ^^^ rotr 13 x ^^^ rotr 22 x

/-- Big sigma-1. -/
def bSig1 (x : Nat) : Nat := rotr 6 x ^^^ rotr 11 x ^^^ rotr 25 x

/-- Small sigma-0. -/
def sSig0 (x : Nat) : Nat := rotr 7 x ^^^ rotr 18 x ^^^ (x >>> 3)

/-- Small sigma-1. -/
def sSig1 (x : Nat) : Nat := rotr 17 x ^^^ rotr 19 x ^^^ (x >>> 10)

/-- Choice function (bitwise not within 32 bits). -/
def chF (x y z : Nat) : Nat := (x &&& y) ^^^ ((x ^^^ 0xffffffff) &&& z)

/-- Majority function. -/
def majF (x y z : Nat) : Nat := (x &&& y) ^^^ ((x &&& z) ^^^ (y &&& z))

/-- Big-endian 8-byte rendering of the bit length. -/
def be64 (n : Nat) : List Nat :=
  [(n >>> 56) % 256, (n >>> 48) % 256, (n >>> 40) % 256, (n >>> 32) % 256,
   (n >>> 24) % 256, (n >>> 16) % 256, (n >>> 8) % 256, n % 256]

/-- Big-endian 4-byte rendering of a 32-bit word. -/
def be32 (n : Nat) : List Nat :=
  [(n >>> 24) % 256, (n >>> 16) % 256, (n >>> 8) % 256, n % 256]

/-- Merkle–Damgård padding: a `0x80` byte, zeros, and the 64-bit bit length. -/
def padMsg (msg : List Nat) : List Nat :=
  let L := msg.length
  msg ++ [0x80] ++ List.replicate ((64 - (L + 9) % 64) % 64) 0 ++ be64 (8 * L)

/-- Group bytes into big-endian 32-bit words. -/
def toWords : List Nat → List Nat
  | a :: b :: c :: d :: rest => (((a * 256 + b) * 256 + c) * 256 + d) :: toWords rest
  | _ => []

/-- Extend the 16 block words to the 64-entry message schedule. -/
def buildW : Nat → Array Nat → Array Nat
  | 0, w => w
  | k + 1, w =>
    buildW k (w.push (w32 (sSig1 (w.getD (w.size - 2) 0) + w.getD (w.size - 7) 0 +
      sSig0 (w.getD (w.size - 15) 0) + w.getD (w.size - 16) 0)))

/-- One SHA-256 round. -/
def shaStep (r : Regs) (k w : Nat) : Regs :=
  let t1 := w32 (r.h + bSig1 r.e + chF r.e r.f r.g + k + w)
  let t2 := w32 (bSig0 r.a + majF r.a r.b r.c)
  ⟨w32 (t1 + t2), r.a, r.b, r.c, w32 (r.d + t1), r.e, r.f, r.g⟩

/-- Compress one 64-byte block into the running state. -/
def compress (r0 : Regs) (block : List Nat) : Regs :=
  let ws := (buildW 48 (toWords block).toArray).toList
  let r := (shaK.zip ws).foldl (fun r p => shaStep r p.1 p.2) r0
  ⟨w32 (r0.a + r.a), w32 (r0.b + r.b), w32 (r0.c + r.c), w32 (r0.d + r.d),
   w32 (r0.e + r.e), w32 (r0.f + r.f), w32 (r0.g + r.g), w32 (r0.h + r.h)⟩

/-- Split into 64-byte chunks (fuelled; the padded message length is a
multiple of 64). -/
def chunks64 : Nat → List Nat → List (List Nat)
  | 0, _ => []
  | _ + 1, [] => []
  | k + 1, l => l.take 64 :: chunks64 k (l.drop 64)

/-- SHA-256 digest of a byte sequence, as 32 bytes. -/
def sha256Bytes (msg : List Nat) : List Nat :=
  let padded := padMsg msg
  let r := (chunks64 (padded.length / 64) padded).foldl compress shaInit
  be32 r.a ++ be32 r.b ++ be32 r.c ++ be32 r.d ++
  be32 r.e ++ be32 r.f ++ be32 r.g ++ be32 r.h

/-- Lowercase hex rendering of a byte sequence (`fmt.Sprintf("%x", h)` for a
fixed-size byte array). -/
def bytesToHex (bs : List Nat) : String :=
  String.mk (bs.flatMap fun b => [hexChar (b / 16 % 16), hexChar (b % 16)])

/-- Byte sequence of a key (UTF-8, modelled exactly for ASCII keys). -/
def strBytes (s : String) : List Nat := s.data.map (fun c => c.toNat % 256)

/-- Models `hash(key, false)`: the hex-rendered SHA-256 digest of the key. -/
def hashHex (key : String) : String := bytesToHex (sha256Bytes (strBytes key))

/-- Models `hash(key, true)`: digest plus `.` plus hex nanosecond timestamp. -/
def hashTs (key : String) (now : Int) : String := hashHex key ++ "." ++ intHex now

/-! ## Filesystem model -/

/-- A filesystem node: regular file with byte content, directory, or
symbolic link holding its target path verbatim. -/
inductive Node
  | file (content : List Nat)
  | dir
  | symlink (target : String)
deriving DecidableEq, Repr

/-- A filesystem: an association list from absolute paths to nodes. -/
abbrev Fs := List (String × Node)

/-- Node stored at a path (no symlink resolution). -/
def Fs.get : Fs → String → Option Node
  | [], _ => none
  | (k, v) :: rest, p => if k == p then some v else Fs.get rest p

/-- `q` equals `p` or lies inside the subtree rooted at `p`. -/
def underB (q p : String) : Bool := q == p || strHasPre q (p ++ "/")

/-- Store a node at a path, replacing any previous node there. -/
def Fs.insert (fs : Fs) (p : String) (n : Node) : Fs :=
  (p, n) :: fs.filter (fun kv => kv.1 != p)

/-- Models `os.RemoveAll`: delete the path and its whole subtree; never an
error (it ignores missing paths). -/
def Fs.removeAll (fs : Fs) (p : String) : Fs :=
  fs.filter (fun kv => !underB kv.1 p)

/-- Delete exactly one path. -/
def Fs.erase (fs : Fs) (p : String) : Fs :=
  fs.filter (fun kv => kv.1 != p)

/-- Does the path have entries strictly inside it? -/
def Fs.hasChild (fs : Fs) (p : String) : Bool :=
  fs.any (fun kv => strHasPre kv.1 (p ++ "/"))

/-- Error values of the modelled `os`/`fmt` operations, tagged by kind the
way the code distinguishes them (`os.IsNotExist`, `os.IsExist`). -/
inductive GoErr
  | notFound (path : String)
  | already (path : String)
  | einval (path : String)
  | eisdir (path : String)
  | notEmpty (path : String)
  | eloop (path : String)
  | malformed (entry : String)
  | invalidTx
  | pathEscape
  | wrapped (msg : String) (inner : GoErr)
deriving DecidableEq, Repr

/-- Models `os.IsNotExist` on the errors our operations produce. -/
def isNotExistE : GoErr → Bool
  | .notFound _ => true
  | _ => false

/-- Models `os.IsExist` on the errors our operations produce. -/
def isExistE : GoErr → Bool
  | .already _ => true
  | _ => false

/-- Models `os.Stat`/`os.Open` path resolution: follow symlinks with bounded
fuel, returning the final path and its node. -/
def resolve (fs : Fs) : Nat → String → Except GoErr (String × Node)
  | 0, p => .error (.eloop p)
  | fuel + 1, p =>
    match fs.get p with
    | none => .error (.notFound p)
    | some (.symlink t) => resolve fs fuel t
    | some n => .ok (p, n)

/-- Resolve symlinks to the final (possibly nonexistent) name an
`os.Create` would write through. -/
def nameRes (fs : Fs) : Nat → String → Option String
  | 0, _ => none
  | fuel + 1, p =>
    match fs.get p with
    | some (.symlink t) => nameRes fs fuel t
    | _ => some p

/-- Models `os.Readlink`: the stored target of a symlink; `ENOENT` when the
path is absent, `EINVAL` when it is not a symlink. -/
def readlinkF (fs : Fs) (p : String) : Except GoErr String :=
  match fs.get p with
  | none => .error (.notFound p)
  | some (.symlink t) => .ok t
  | some _ => .error (.einval p)

/-- Models `os.Symlink target p`: fails with `EEXIST` when `p` exists and
with `ENOENT` when its parent directory does not. -/
def symlinkF (fs : Fs) (target p : String) : Except GoErr Fs :=
  if (fs.get p).isSome then .error (.already p)
  else
    match fs.get (parentOf p) with
    | some .dir => .ok (fs.insert p (.symlink target))
    | _ => .error (.notFound p)

/-- Models `os.Mkdir`. -/
def mkdirF (fs : Fs) (p : String) : Except GoErr Fs :=
  if (fs.get p).isSome then .error (.already p)
  else
    match fs.get (parentOf p) with
    | some .dir => .ok (fs.insert p .dir)
    | _ => .error (.notFound p)

/-- Models `os.Create`: follow symlinks, then create or truncate a regular
file; fails when the final name is a directory or its parent is missing.
Returns the handle's final name together with the new filesystem. -/
def createF (fs : Fs) (p : String) : Except GoErr (String × Fs) :=
  match nameRes fs 40 p with
  | none => .error (.eloop p)
  | some q =>
    match fs.get (parentOf q) with
    | some .dir =>
      match fs.get q with
      | some .dir => .error (.eisdir q)
      | _ => .ok (q, fs.insert q (.file []))
    | _ => .error (.notFound q)

/-- Models `os.Remove`: unlink a file, symlink, or empty directory, without
following symlinks. -/
def removeF (fs : Fs) (p : String) : Except GoErr Fs :=
  match fs.get p with
  | none => .error (.notFound p)
  | some .dir => if fs.hasChild p then .error (.notEmpty p) else .ok (fs.erase p)
  | some _ => .ok (fs.erase p)

/-- Relocate a path and its subtree onto a new name. -/
def movePre (fs : Fs) (src dst : String) : Fs :=
  fs.map (fun kv =>
    if kv.1 == src then (dst, kv.2)
    else if strHasPre kv.1 (src ++ "/") then
      (dst ++ String.mk (kv.1.data.drop src.data.length), kv.2)
    else kv)

/-- Models `os.Rename`: atomically move `src` onto `dst`, replacing a
non-directory `dst`; fails when `src` is absent or `dst` is a directory. -/
def renameF (fs : Fs) (src dst : String) : Except GoErr Fs :=
  match fs.get src with
  | none => .error (.notFound src)
  | some _ =>
    match fs.get dst with
    | some .dir => .error (.eisdir dst)
    | _ => .ok (movePre (fs.erase dst) src dst)

/-- Strict byte-wise order on strings (Go's `<` on strings, for ASCII). -/
def listLtB : List Char → List Char → Bool
  | [], [] => false
  | [], _ :: _ => true
  | _ :: _, [] => false
  | x :: xs, y :: ys =>
    if x.toNat < y.toNat then true
    else if y.toNat < x.toNat then false
    else listLtB xs ys

/-- String comparison used to sort `filepath.Glob` results. -/
def strLtB (a b : String) : Bool := listLtB a.data b.data

/-- Insertion into a sorted list of strings. -/
def insSorted (x : String) : List String → List String
  | [] => [x]
  | y :: ys => if strLtB x y then x :: y :: ys else y :: insSorted x ys

/-- Sort strings lexically, as `filepath.Glob` reports its matches. -/
def sortStrs (l : List String) : List String := l.foldr insSorted []

/-- `q` is a direct child of directory `dir` (one extra path element). -/
def isChildOf (q dir : String) : Bool :=
  strHasPre q (dir ++ "/") && !((q.data.drop (dir.data.length + 1)).contains '/')

/-- Models `filepath.Glob (dir ++ "/*")` for a literal `dir`: the existing
direct children, in lexical order. -/
def globF (fs : Fs) (dir : String) : List String :=
  sortStrs ((fs.map (·.1)).filter (fun q => isChildOf q dir))

/-! ## Clock and machine state -/

/-- The package-global `clock`.  `now` first adds `step`, then returns the
new current time — exactly the repository's `fakeClock` (whose `step` is one
second); a real monotone clock is any nonnegative `step` sequence, of which
this fixed-increment form is the special case the properties below use.
`since t` is `cur - t` and reads the clock without advancing it. -/
structure Clock where
  cur : Int
  step : Int
deriving DecidableEq, Repr

/-- Models `clock.Now().UnixNano()` (advances the clock). -/
def Clock.now (c : Clock) : Int × Clock :=
  (c.cur + c.step, { c with cur := c.cur + c.step })

/-- Models `clock.Since(time.Unix(0, t))` in nanoseconds. -/
def Clock.since (c : Clock) (t : Int) : Int := c.cur - t

/-- Machine state: the filesystem and the package-global clock. -/
structure St where
  fs : Fs
  clk : Clock
deriving DecidableEq, Repr

/-- Result of a Go call: a run-time panic, an error value, or a result. -/
inductive Out (α : Type)
  | panics (msg : String)
  | err (e : GoErr)
  | ok (a : α)
deriving DecidableEq, Repr

/-! ## The cache operations, translated from `localcache.go` -/

/-- The `Cache` struct: its root directory. -/
structure Cache where
  root : String
deriving DecidableEq, Repr

/-- Models `Transaction.Valid`. -/
def txValid (tx : String) : Bool := tx != ""

/-- Models `Transaction.path`: panics on an invalid token (explicit `panic`
in the source) and on a non-empty token shorter than two bytes (the Go
slice expression `string(t)[:2]` is out of range there). -/
def txPath (root tx : String) : Out String :=
  if !txValid tx then .panics "transaction is not valid"
  else if tx.data.length < 2 then .panics "slice bounds out of range"
  else .ok (pjoin3 root (strTake tx 2) tx)

/-- Tail of `Cache.Commit` from the clock read onwards: mint the temporary
timestamped symlink, atomically rename it onto the canonical name, then
best-effort delete the old target. -/
def commitCont (st : St) (path dest old : String) : St × Out String :=
  let (now, clk) := st.clk.now
  let tmp := dest ++ "." ++ intHex now
  match symlinkF st.fs path tmp with
  | .error e => ({ st with clk := clk }, .err (.wrapped "failed to finalise symlink" e))
  | .ok fs1 =>
    match renameF fs1 tmp dest with
    | .error e => ({ fs := fs1, clk := clk }, .err (.wrapped "failed to finalise rename" e))
    | .ok fs2 =>
      let fs3 := if old != "" then fs2.removeAll old else fs2
      ({ fs := fs3, clk := clk }, .ok dest)

/-- Models `Cache.Commit`. -/
def commit (c : Cache) (st : St) (tx : String) : St × Out String :=
  if !txValid tx then (st, .err .invalidTx)
  else
    match txPath c.root tx with
    | .panics m => (st, .panics m)
    | .err e => (st, .err e)
    | .ok path =>
      if !strHasPre path c.root then (st, .err .pathEscape)
      else
        let dest := strTrimSuf path (goExt path)
        match resolve st.fs 40 path with
        | .error e => (st, .err e)
        | .ok _ =>
          match readlinkF st.fs dest with
          | .error e =>
            if isNotExistE e then commitCont st path dest ""
            else (st, .err (.wrapped "failed to read link" e))
          | .ok old => commitCont st path dest old

/-- Models `Cache.Rollback`. -/
def rollback (c : Cache) (st : St) (tx : String) : St × Out Unit :=
  if !txValid tx then (st, .err .invalidTx)
  else
    match txPath c.root tx with
    | .panics m => (st, .panics m)
    | .err e => (st, .err e)
    | .ok path => ({ st with fs := st.fs.removeAll path }, .ok ())

/-- Models `Cache.pathForKey`: stamp the key, then idempotently create the
partition directory. -/
def pathForKey (c : Cache) (st : St) (key : String) : St × Out String :=
  let (now, clk) := st.clk.now
  let k := hashTs key now
  let path := pjoin3 c.root (strTake k 2) k
  match mkdirF st.fs (pjoin c.root (strTake k 2)) with
  | .error e =>
    if isExistE e then ({ st with clk := clk }, .ok path)
    else ({ st with clk := clk }, .err (.wrapped "failed to create cache partition" e))
  | .ok fs1 => ({ fs := fs1, clk := clk }, .ok path)

/-- Models `Cache.Create`: the result carries the Transaction token and the
open handle's file name. -/
def createOp (c : Cache) (st : St) (key : String) : St × Out (String × String) :=
  match pathForKey c st key with
  | (st1, .panics m) => (st1, .panics m)
  | (st1, .err e) => (st1, .err e)
  | (st1, .ok path) =>
    match createF st1.fs path with
    | .error e => (st1, .err (.wrapped "could not create cache file" e))
    | .ok (fname, fs2) => ({ st1 with fs := fs2 }, .ok (baseOf path, fname))

/-- Models `Cache.Mkdir`: the result carries the Transaction token and the
created directory's path. -/
def mkdirOp (c : Cache) (st : St) (key : String) : St × Out (String × String) :=
  match pathForKey c st key with
  | (st1, .panics m) => (st1, .panics m)
  | (st1, .err e) => (st1, .err e)
  | (st1, .ok path) =>
    match mkdirF st1.fs path with
    | .error e => (st1, .err (.wrapped "could not create cache directory" e))
    | .ok fs2 => ({ st1 with fs := fs2 }, .ok (baseOf path, path))

/-- Replace a file's content (the `w.Write(data)` of `WriteFile` on the
freshly created empty file). -/
def setContent (fs : Fs) (p : String) (data : List Nat) : Fs :=
  fs.insert p (.file data)

/-- Models `Cache.WriteFile`: `Create`, write, close, then the deferred
`RollbackOrCommit` with a nil error runs `Commit` and returns its error. -/
def writeFile (c : Cache) (st : St) (key : String) (data : List Nat) : St × Out Unit :=
  match createOp c st key with
  | (st1, .panics m) => (st1, .panics m)
  | (st1, .err e) => (st1, .err e)
  | (st1, .ok (tx, fname)) =>
    let st2 := { st1 with fs := setContent st1.fs fname data }
    match commit c st2 tx with
    | (st3, .panics m) => (st3, .panics m)
    | (st3, .err e) => (st3, .err e)
    | (st3, .ok _) => (st3, .ok ())

/-- Models `Cache.Open`: resolve the published name through its symlink.
The handle is the resolved path with the node open at it. -/
def openOp (c : Cache) (st : St) (key : String) : Out (String × Node) :=
  let k := hashHex key
  match resolve st.fs 40 (pjoin3 c.root (strTake k 2) k) with
  | .error e => .err e
  | .ok r => .ok r

/-- Models `Cache.ReadFile` (`ioutil.ReadFile`). -/
def readFileOp (c : Cache) (st : St) (key : String) : Out (List Nat) :=
  let k := hashHex key
  match resolve st.fs 40 (pjoin3 c.root (strTake k 2) k) with
  | .error e => .err e
  | .ok (_, .file content) => .ok content
  | .ok (q, _) => .err (.eisdir q)

/-- Models `Cache.IfExists`: the published path when `os.Stat` succeeds on
it, otherwise the empty string. -/
def ifExists (c : Cache) (st : St) (key : String) : String :=
  let k := hashHex key
  let path := pjoin3 c.root (strTake k 2) k
  match resolve st.fs 40 path with
  | .error _ => ""
  | .ok _ => path

/-- Models `Cache.CreateOrRead`: `Open`, falling back to `Create` on any
`Open` error; an existing entry comes back with the empty (invalid) token. -/
def createOrRead (c : Cache) (st : St) (key : String) :
    St × Out (String × (String × Node)) :=
  match openOp c st key with
  | .ok f => (st, .ok ("", f))
  | .panics m => (st, .panics m)
  | .err _ =>
    match createOp c st key with
    | (st1, .panics m) => (st1, .panics m)
    | (st1, .err e) => (st1, .err e)
    | (st1, .ok (tx, fname)) => (st1, .ok (tx, (fname, .file [])))

/-- Tail of `Cache.Remove` after the old link target has been read. -/
def removeCont (st : St) (path old : String) : St × Out Unit :=
  match removeF st.fs path with
  | .error e => (st, .err (.wrapped "failed to remove cache entry" e))
  | .ok fs1 =>
    let fs2 := if old != "" then fs1.removeAll old else fs1
    ({ st with fs := fs2 }, .ok ())

/-- Models `Cache.Remove`: remember the link target, unlink the pointer,
then best-effort delete the target. -/
def removeOp (c : Cache) (st : St) (key : String) : St × Out Unit :=
  let k := hashHex key
  let path := pjoin3 c.root (strTake k 2) k
  match readlinkF st.fs path with
  | .error e =>
    if isNotExistE e then removeCont st path ""
    else (st, .err (.wrapped "failed to read entry" e))
  | .ok old => removeCont st path old

/-- Models `removeEntry`: skip suffix-less names, reject unparsable hex
timestamps, skip young entries, otherwise unlink the pointer (tolerating
`ENOENT`) and recursively delete the entry. -/
def removeEntry (clk : Clock) (fs : Fs) (entry : String) (older : Int) :
    Fs × Option GoErr :=
  let ext := goExt entry
  if ext == "" then (fs, none)
  else
    match scanHex (strTrimPre ext ".") with
    | none => (fs, some (.malformed entry))
    | some ts =>
      if clk.since (Int.ofNat ts) < older then (fs, none)
      else
        match removeF fs (strTrimSuf entry ext) with
        | .error e =>
          if isNotExistE e then (fs.removeAll entry, none)
          else (fs, some (.wrapped "failed to remove entry link" e))
        | .ok fs1 => (fs1.removeAll entry, none)

/-- Models `Cache.PurgeKey`: purge only the currently published target of
one key; a missing pointer is a no-op. -/
def purgeKey (c : Cache) (st : St) (key : String) (older : Int) : St × Out Unit :=
  let k := hashHex key
  let path := pjoin3 c.root (strTake k 2) k
  match readlinkF st.fs path with
  | .error e =>
    if isNotExistE e then (st, .ok ())
    else (st, .err (.wrapped "could not read link for purging" e))
  | .ok entry =>
    match removeEntry st.clk st.fs entry older with
    | (fs1, none) => ({ st with fs := fs1 }, .ok ())
    | (fs1, some e) => ({ st with fs := fs1 }, .err e)

/-- Inner loop of `Cache.Purge` over one partition's entries, aborting on
the first `removeEntry` error. -/
def purgeEntries (clk : Clock) (older : Int) : Fs → List String → Fs × Option GoErr
  | fs, [] => (fs, none)
  | fs, e :: es =>
    match removeEntry clk fs e older with
    | (fs1, none) => purgeEntries clk older fs1 es
    | (fs1, some err) => (fs1, some err)

/-- Outer loop of `Cache.Purge` over the partitions; each partition's
entries are globbed when the loop reaches it. -/
def purgeParts (clk : Clock) (older : Int) : Fs → List String → Fs × Option GoErr
  | fs, [] => (fs, none)
  | fs, p :: ps =>
    match purgeEntries clk older fs (globF fs p) with
    | (fs1, none) => purgeParts clk older fs1 ps
    | (fs1, some err) => (fs1, some err)

/-- Models `Cache.Purge`: walk every partition, then every entry in it. -/
def purge (c : Cache) (st : St) (older : Int) : St × Out Unit :=
  match purgeParts st.clk older st.fs (globF st.fs c.root) with
  | (fs1, none) => ({ st with fs := fs1 }, .ok ())
  | (fs1, some e) => ({ st with fs := fs1 }, .err e)

/-- The canonical published path of a digest (the PublishedPointer's name). -/
def pubPath (r dg : String) : String := pjoin3 r (strTake dg 2) dg

/-- The staged path of a digest with a timestamp suffix (a StagedObject's
name, and the path a Transaction token resolves to). -/
def stagedPath (r dg suf : String) : String :=
  pjoin3 r (strTake dg 2) (dg ++ "." ++ suf)

/-- The `oldDest` that `Commit`/`Remove` read: the stored target of the
pointer when it is a symlink, otherwise the empty string. -/
def oldTargetOf (fs : Fs) (p : String) : String :=
  match fs.get p with
  | some (.symlink t) => t
  | _ => ""

/-- Is the outcome a run-time panic? -/
def Out.isPanics {α : Type} : Out α → Bool
  | .panics _ => true
  | _ => false

/-! ## Lemmas about the string helpers -/

theorem listLead_append_self (p q : List Char) : listLead p (p ++ q) = true := by
  induction p with
  | nil => rfl
  | cons a as ih => simp [listLead, ih]

theorem listLead_length {p q : List Char} (h : listLead p q = true) :
    p.length ≤ q.length := by
  induction p generalizing q with
  | nil => simp
  | cons a as ih =>
    cases q with
    | nil => simp [listLead] at h
    | cons b bs =>
      simp only [listLead, Bool.and_eq_true] at h
      simpa [Nat.succ_le_succ_iff] using ih h.2

theorem listLead_mem {p q : List Char} (h : listLead p q = true) :
    ∀ c ∈ p, c ∈ q := by
  induction p generalizing q with
  | nil => simp
  | cons a as ih =>
    cases q with
    | nil => simp [listLead] at h
    | cons b bs =>
      simp only [listLead, Bool.and_eq_true, beq_iff_eq] at h
      intro c hc
      rcases List.mem_cons.mp hc with rfl | hc
      · simp [h.1]
      · exact List.mem_cons_of_mem _ (ih h.2 c hc)

theorem listLead_append_same (x y z : List Char) :
    listLead (x ++ y) (x ++ z) = listLead y z := by
  induction x with
  | nil => rfl
  | cons a as ih => simp [listLead, ih]

theorem listLead_false_of_longer {p q : List Char} (h : q.length < p.length) :
    listLead p q = false := by
  cases hl : listLead p q
  · rfl
  · exact absurd (listLead_length hl) (by omega)

theorem string_eq_iff_data {a b : String} : a = b ↔ a.data = b.data :=
  ⟨fun h => h ▸ rfl, fun h => congrArg String.mk h⟩

theorem strHasPre_append_self (s t : String) : strHasPre (s ++ t) s = true := by
  simp [strHasPre, String.data_append, listLead_append_self]

theorem string_ne_append {s t : String} (h : t.data ≠ []) : s ≠ s ++ t := by
  intro he
  have hd : s.data = s.data ++ t.data := by
    simpa [String.data_append] using string_eq_iff_data.mp he
  have hl := congrArg List.length hd
  rw [List.length_append] at hl
  exact h (List.eq_nil_of_length_eq_zero (by omega))

theorem strTrimSuf_append (x s : String) : strTrimSuf (x ++ s) s = x := by
  have hrev : (x ++ s).data.reverse = s.data.reverse ++ x.data.reverse := by
    simp [String.data_append]
  rw [strTrimSuf, hrev, if_pos (by simpa using listLead_append_self s.data.reverse x.data.reverse)]
  apply string_eq_iff_data.mpr
  rw [String.data_append, List.length_append, Nat.add_sub_cancel, List.take_left]

theorem strTrimPre_dot (s : String) : strTrimPre ("." ++ s) "." = s := by
  have hd : ("." ++ s).data = '.' :: s.data := by
    rw [String.data_append]; rfl
  rw [strTrimPre, hd]
  rw [if_pos (by simp [listLead])]
  rfl

theorem strTake_append {a b : String} {n : Nat} (h : n ≤ a.data.length) :
    strTake (a ++ b) n = strTake a n := by
  simp [strTake, String.data_append, List.take_append_of_le_length h]

theorem extFrom_scan {l : List Char} (hl : ∀ c ∈ l, c ≠ '.' ∧ c ≠ '/') :
    ∀ acc rest, extFrom acc (l ++ '.' :: rest) = some ('.' :: (l.reverse ++ acc)) := by
  induction l with
  | nil => intro acc rest; rfl
  | cons a as ih =>
    intro acc rest
    have ha := hl a (by simp)
    have has : ∀ c ∈ as, c ≠ '.' ∧ c ≠ '/' := fun c hc => hl c (by simp [hc])
    show extFrom acc (a :: (as ++ '.' :: rest)) = _
    rw [extFrom]
    rw [if_neg (by simpa using ha.2), if_neg (by simpa using ha.1), ih has]
    simp

theorem goExt_append_dot (x s : String) (hs : ∀ c ∈ s.data, c ≠ '.' ∧ c ≠ '/') :
    goExt (x ++ "." ++ s) = "." ++ s := by
  have hdata : (x ++ "." ++ s).data = x.data ++ '.' :: s.data := by
    rw [String.data_append, String.data_append, List.append_assoc]
    rfl
  have hrev : (x ++ "." ++ s).data.reverse = s.data.reverse ++ '.' :: x.data.reverse := by
    rw [hdata]
    simp
  have hmem : ∀ c ∈ s.data.reverse, c ≠ '.' ∧ c ≠ '/' := by
    intro c hc; exact hs c (List.mem_reverse.mp hc)
  rw [goExt, hrev, extFrom_scan hmem]
  apply string_eq_iff_data.mpr
  rw [String.data_append]
  simp

theorem dropTail_scan {l : List Char} (hl : ∀ c ∈ l, c ≠ '/') (rest : List Char) :
    dropTail (l ++ '/' :: rest) = rest := by
  induction l with
  | nil => rfl
  | cons a as ih =>
    have ha := hl a (by simp)
    have has : ∀ c ∈ as, c ≠ '/' := fun c hc => hl c (by simp [hc])
    show dropTail (a :: (as ++ '/' :: rest)) = rest
    rw [dropTail]
    rw [if_neg (by simpa using ha), ih has]

theorem parentOf_pjoin (d nm : String) (h : ∀ c ∈ nm.data, c ≠ '/') :
    parentOf (d ++ "/" ++ nm) = d := by
  have hdata : (d ++ "/" ++ nm).data = d.data ++ '/' :: nm.data := by
    rw [String.data_append, String.data_append, List.append_assoc]
    rfl
  have hmem : ∀ c ∈ nm.data.reverse, c ≠ '/' := fun c hc => h c (List.mem_reverse.mp hc)
  rw [parentOf, hdata]
  rw [show (d.data ++ '/' :: nm.data).reverse = nm.data.reverse ++ '/' :: d.data.reverse by simp]
  rw [dropTail_scan hmem]
  apply string_eq_iff_data.mpr
  simp

theorem baseFrom_scan {l : List Char} (hl : ∀ c ∈ l, c ≠ '/') :
    ∀ acc rest, baseFrom acc (l ++ '/' :: rest) = l.reverse ++ acc := by
  induction l with
  | nil => intro acc rest; rfl
  | cons a as ih =>
    intro acc rest
    have ha := hl a (by simp)
    have has : ∀ c ∈ as, c ≠ '/' := fun c hc => hl c (by simp [hc])
    show baseFrom acc (a :: (as ++ '/' :: rest)) = _
    rw [baseFrom]
    rw [if_neg (by simpa using ha), ih has]
    simp

theorem isHex_ne_dot (c : Char) (h : isHexDigitB c = true) : c ≠ '.' := by
  rintro rfl; revert h; decide

theorem isHex_ne_slash (c : Char) (h : isHexDigitB c = true) : c ≠ '/' := by
  rintro rfl; revert h; decide

theorem hexChar_hex {m : Nat} (h : m < 16) : isHexDigitB (hexChar m) = true := by
  interval_cases m <;> decide

theorem natHexAux_mem :
    ∀ (f n : Nat) (acc : List Char), ∀ c ∈ natHexAux f n acc,
      isHexDigitB c = true ∨ c ∈ acc := by
  intro f
  induction f with
  | zero => intro n acc c hc; exact Or.inr hc
  | succ f ih =>
    intro n acc c hc
    rw [natHexAux] at hc
    by_cases hn : n < 16
    · rw [if_pos hn] at hc
      rcases List.mem_cons.mp hc with rfl | hc
      · exact Or.inl (hexChar_hex hn)
      · exact Or.inr hc
    · rw [if_neg hn] at hc
      rcases ih _ _ c hc with h | h
      · exact Or.inl h
      · rcases List.mem_cons.mp h with rfl | h
        · exact Or.inl (hexChar_hex (Nat.mod_lt _ (by omega)))
        · exact Or.inr h

theorem natHex_hex (n : Nat) : ∀ c ∈ (natHex n).data, isHexDigitB c = true := by
  intro c hc
  rcases natHexAux_mem (n + 1) n [] c hc with h | h
  · exact h
  · simp at h

theorem natHexAux_ne_nil :
    ∀ (f n : Nat) (acc : List Char), acc ≠ [] → natHexAux f n acc ≠ [] := by
  intro f
  induction f with
  | zero => intro n acc h; exact h
  | succ f ih =>
    intro n acc h
    rw [natHexAux]
    by_cases hn : n < 16
    · rw [if_pos hn]; simp
    · rw [if_neg hn]; exact ih _ _ (by simp)

theorem natHex_ne_nil (n : Nat) : (natHex n).data ≠ [] := by
  show natHexAux (n + 1) n [] ≠ []
  rw [natHexAux]
  by_cases hn : n < 16
  · rw [if_pos hn]; simp
  · rw [if_neg hn]; exact natHexAux_ne_nil _ _ _ (by simp)

theorem intHex_noDotSlash (i : Int) : ∀ c ∈ (intHex i).data, c ≠ '.' ∧ c ≠ '/' := by
  intro c hc
  rw [intHex] at hc
  split at hc
  · rw [String.data_append] at hc
    rcases List.mem_append.mp hc with h | h
    · rw [show ("-" : String).data = ['-'] from rfl] at h
      rcases List.mem_singleton.mp h with rfl
      exact ⟨by decide, by decide⟩
    · have := natHex_hex _ c h
      exact ⟨isHex_ne_dot c this, isHex_ne_slash c this⟩
  · have := natHex_hex _ c hc
    exact ⟨isHex_ne_dot c this, isHex_ne_slash c this⟩

theorem intHex_ne_nil (i : Int) : (intHex i).data ≠ [] := by
  rw [intHex]
  split
  · rw [String.data_append]; simp
  · exact natHex_ne_nil _

theorem bytesToHex_cons (b : Nat) (bs : List Nat) :
    (bytesToHex (b :: bs)).data =
      hexChar (b / 16 % 16) :: hexChar (b % 16) :: (bytesToHex bs).data := rfl

theorem bytesToHex_len (bs : List Nat) : (bytesToHex bs).data.length = 2 * bs.length := by
  induction bs with
  | nil => rfl
  | cons b bs ih =>
    rw [bytesToHex_cons]
    simp only [List.length_cons, ih, List.length_cons]
    omega

theorem bytesToHex_hex (bs : List Nat) :
    ∀ c ∈ (bytesToHex bs).data, isHexDigitB c = true := by
  induction bs with
  | nil => intro c hc; simp [bytesToHex] at hc
  | cons b bs ih =>
    intro c hc
    rw [bytesToHex_cons] at hc
    rcases List.mem_cons.mp hc with rfl | hc
    · exact hexChar_hex (Nat.mod_lt _ (by omega))
    · rcases List.mem_cons.mp hc with rfl | hc
      · exact hexChar_hex (Nat.mod_lt _ (by omega))
      · exact ih c hc

theorem sha256Bytes_len (m : List Nat) : (sha256Bytes m).length = 32 := by
  simp [sha256Bytes, be32]

theorem hashHex_len (k : String) : (hashHex k).data.length = 64 := by
  rw [hashHex, bytesToHex_len, sha256Bytes_len]

theorem hashHex_hex (k : String) : ∀ c ∈ (hashHex k).data, isHexDigitB c = true :=
  bytesToHex_hex _

theorem hashHex_noDotSlash (k : String) :
    ∀ c ∈ (hashHex k).data, c ≠ '.' ∧ c ≠ '/' := by
  intro c hc
  have := hashHex_hex k c hc
  exact ⟨isHex_ne_dot c this, isHex_ne_slash c this⟩

theorem hashHex_ne_nil (k : String) : (hashHex k).data ≠ [] := by
  intro h
  have := hashHex_len k
  rw [h] at this
  simp at this

theorem baseOf_pjoin (d nm : String) (h : ∀ c ∈ nm.data, c ≠ '/') :
    baseOf (d ++ "/" ++ nm) = nm := by
  have hdata : (d ++ "/" ++ nm).data = d.data ++ '/' :: nm.data := by
    rw [String.data_append, String.data_append, List.append_assoc]
    rfl
  have hmem : ∀ c ∈ nm.data.reverse, c ≠ '/' := fun c hc => h c (List.mem_reverse.mp hc)
  rw [baseOf, hdata]
  rw [show (d.data ++ '/' :: nm.data).reverse = nm.data.reverse ++ '/' :: d.data.reverse by simp]
  rw [baseFrom_scan hmem]
  apply string_eq_iff_data.mpr
  simp

/-! ## Lemmas about the filesystem model -/

theorem Fs.get_cons (k : String) (v : Node) (rest : Fs) (q : String) :
    Fs.get ((k, v) :: rest) q = if k = q then some v else Fs.get rest q := by
  simp [Fs.get]

theorem Fs.erase_cons (k : String) (v : Node) (rest : Fs) (p : String) :
    Fs.erase ((k, v) :: rest) p =
      if k = p then Fs.erase rest p else (k, v) :: Fs.erase rest p := by
  by_cases h : k = p <;> simp [Fs.erase, List.filter_cons, h]

theorem Fs.removeAll_cons (k : String) (v : Node) (rest : Fs) (p : String) :
    Fs.removeAll ((k, v) :: rest) p =
      if underB k p then Fs.removeAll rest p else (k, v) :: Fs.removeAll rest p := by
  by_cases h : underB k p <;> simp [Fs.removeAll, List.filter_cons, h]

theorem Fs.get_erase (fs : Fs) (p q : String) :
    Fs.get (fs.erase p) q = if q = p then none else fs.get q := by
  induction fs with
  | nil => simp [Fs.erase, Fs.get]
  | cons kv rest ih =>
    obtain ⟨k, v⟩ := kv
    rw [Fs.erase_cons]
    by_cases hk : k = p
    · rw [if_pos hk, ih, Fs.get_cons]
      by_cases hq : q = p
      · simp [hq]
      · rw [if_neg hq, if_neg hq, if_neg (hk ▸ fun h => hq h.symm)]
    · rw [if_neg hk, Fs.get_cons, Fs.get_cons]
      by_cases hq : k = q
      · rw [if_pos hq, if_pos hq, if_neg (fun h : q = p => hk (hq ▸ h))]
      · rw [if_neg hq, if_neg hq, ih]

theorem Fs.get_removeAll (fs : Fs) (p q : String) :
    Fs.get (fs.removeAll p) q = if underB q p then none else fs.get q := by
  induction fs with
  | nil => simp [Fs.removeAll, Fs.get]
  | cons kv rest ih =>
    obtain ⟨k, v⟩ := kv
    rw [Fs.removeAll_cons]
    by_cases hk : underB k p
    · rw [if_pos hk, ih]
      by_cases hq : underB q p
      · simp [hq]
      · rw [if_neg hq, if_neg hq, Fs.get_cons,
          if_neg (fun h : k = q => hq (h ▸ hk))]
    · rw [if_neg hk, Fs.get_cons, Fs.get_cons]
      by_cases hq : k = q
      · rw [if_pos hq, if_pos hq, if_neg (hq ▸ hk)]
      · rw [if_neg hq, if_neg hq, ih]

theorem Fs.insert_eq_cons (fs : Fs) (p : String) (n : Node) :
    fs.insert p n = (p, n) :: fs.erase p := rfl

theorem Fs.get_insert (fs : Fs) (p : String) (n : Node) (q : String) :
    Fs.get (fs.insert p n) q = if q = p then some n else fs.get q := by
  rw [Fs.insert_eq_cons, Fs.get_cons, Fs.get_erase]
  by_cases h : q = p
  · simp [h]
  · rw [if_neg (fun he : p = q => h he.symm), if_neg h, if_neg h]

theorem Fs.hasChild_false {fs : Fs} {p : String} (h : fs.hasChild p = false) :
    ∀ kv ∈ fs, strHasPre kv.1 (p ++ "/") = false := by
  rw [Fs.hasChild, List.any_eq_false] at h
  intro kv hkv
  simpa using h kv hkv

theorem movePre_cons (k : String) (v : Node) (rest : Fs) (src dst : String) :
    movePre ((k, v) :: rest) src dst =
      (if k == src then (dst, v)
       else if strHasPre k (src ++ "/") then
         (dst ++ String.mk (k.data.drop src.data.length), v)
       else (k, v)) :: movePre rest src dst := rfl

theorem Fs.get_movePre (fs : Fs) (src dst q : String) (hne : src ≠ dst)
    (hdst : ∀ kv ∈ fs, kv.1 ≠ dst)
    (hsub : ∀ kv ∈ fs, strHasPre kv.1 (src ++ "/") = false) :
    Fs.get (movePre fs src dst) q =
      if q = dst then fs.get src else if q = src then none else fs.get q := by
  induction fs with
  | nil => simp [movePre, Fs.get]
  | cons kv rest ih =>
    obtain ⟨k, v⟩ := kv
    have hdk : k ≠ dst := hdst (k, v) (by simp)
    have hsk : strHasPre k (src ++ "/") = false := hsub (k, v) (by simp)
    have ih2 := ih (fun kv h => hdst kv (List.mem_cons_of_mem _ h))
      (fun kv h => hsub kv (List.mem_cons_of_mem _ h))
    rw [movePre_cons]
    by_cases hk : k = src
    · subst hk
      rw [if_pos (beq_iff_eq.mpr rfl)]
      rw [Fs.get_cons dst v (movePre rest k dst) q]
      rw [Fs.get_cons k v rest k, if_pos rfl]
      by_cases hq : q = dst
      · rw [if_pos hq.symm, if_pos hq]
      · rw [if_neg (fun h : dst = q => hq h.symm), if_neg hq, ih2, if_neg hq]
        by_cases hq2 : q = k
        · rw [if_pos hq2, if_pos hq2]
        · rw [if_neg hq2, if_neg hq2, Fs.get_cons k v rest q,
            if_neg (fun h : k = q => hq2 h.symm)]
    · rw [show (if k == src then ((dst, v) : String × Node)
           else if strHasPre k (src ++ "/") then
             (dst ++ String.mk (k.data.drop src.data.length), v)
           else (k, v)) = (k, v) by simp [hk, hsk]]
      rw [Fs.get_cons k v (movePre rest src dst) q]
      rw [Fs.get_cons k v rest src, if_neg hk]
      by_cases hq : k = q
      · rw [if_pos hq]
        rw [if_neg (fun h : q = dst => hdk (hq.trans h))]
        rw [if_neg (fun h : q = src => hk (hq.trans h))]
        rw [Fs.get_cons k v rest q, if_pos hq]
      · rw [if_neg hq, ih2]
        by_cases h1 : q = dst
        · rw [if_pos h1, if_pos h1]
        · rw [if_neg h1, if_neg h1]
          by_cases h2 : q = src
          · rw [if_pos h2, if_pos h2]
          · rw [if_neg h2, if_neg h2, Fs.get_cons k v rest q, if_neg hq]

/-! ## Lemmas about path shapes -/

theorem strHasPre_dotext (p s : String) :
    strHasPre (p ++ "." ++ s) (p ++ "/") = false := by
  rw [strHasPre]
  rw [show (p ++ "." ++ s).data = p.data ++ '.' :: s.data by
    rw [String.data_append, String.data_append, List.append_assoc]; rfl]
  rw [show (p ++ "/").data = p.data ++ ['/'] by rw [String.data_append]]
  rw [show p.data ++ '.' :: s.data = p.data ++ ('.' :: s.data) from rfl]
  rw [listLead_append_same]
  simp [listLead]

theorem strHasPre_false_of_shorter {s pre : String}
    (h : s.data.length < pre.data.length) : strHasPre s pre = false :=
  listLead_false_of_longer h

theorem string_ne_dotext (p s : String) : p ≠ p ++ "." ++ s := by
  rw [String.append_assoc]
  apply string_ne_append
  rw [String.data_append]
  simp

theorem underB_dotext_left (p s : String) : underB p (p ++ "." ++ s) = false := by
  rw [underB]
  rw [show (p == p ++ "." ++ s) = false from beq_eq_false_iff_ne.mpr (string_ne_dotext p s)]
  rw [strHasPre_false_of_shorter]
  · rfl
  · rw [show (p ++ "." ++ s ++ "/").data = (p ++ "." ++ s).data ++ ['/'] by
      rw [String.data_append]]
    rw [show (p ++ "." ++ s).data = p.data ++ '.' :: s.data by
      rw [String.data_append, String.data_append, List.append_assoc]; rfl]
    simp

theorem underB_dotext_right (p s : String) : underB (p ++ "." ++ s) p = false := by
  rw [underB]
  rw [show (p ++ "." ++ s == p) = false from
    beq_eq_false_iff_ne.mpr (fun h => string_ne_dotext p s h.symm)]
  rw [strHasPre_dotext]
  rfl

theorem underB_self (p : String) : underB p p = true := by
  simp [underB]

/-! ## Lemmas about symlink resolution -/

theorem resolve_get_none {fs : Fs} {p : String} (h : fs.get p = none) (fuel : Nat) :
    resolve fs (fuel + 1) p = .error (.notFound p) := by
  show (match fs.get p with
    | none => (.error (.notFound p) : Except GoErr (String × Node))
    | some (.symlink t) => resolve fs fuel t
    | some n => .ok (p, n)) = _
  rw [h]

theorem resolve_get_link {fs : Fs} {p t : String}
    (h : fs.get p = some (.symlink t)) (fuel : Nat) :
    resolve fs (fuel + 1) p = resolve fs fuel t := by
  show (match fs.get p with
    | none => (.error (.notFound p) : Except GoErr (String × Node))
    | some (.symlink t) => resolve fs fuel t
    | some n => .ok (p, n)) = _
  rw [h]

theorem resolve_get_file {fs : Fs} {p : String} {bs : List Nat}
    (h : fs.get p = some (.file bs)) (fuel : Nat) :
    resolve fs (fuel + 1) p = .ok (p, .file bs) := by
  show (match fs.get p with
    | none => (.error (.notFound p) : Except GoErr (String × Node))
    | some (.symlink t) => resolve fs fuel t
    | some n => .ok (p, n)) = _
  rw [h]

theorem resolve_get_dir {fs : Fs} {p : String}
    (h : fs.get p = some .dir) (fuel : Nat) :
    resolve fs (fuel + 1) p = .ok (p, .dir) := by
  show (match fs.get p with
    | none => (.error (.notFound p) : Except GoErr (String × Node))
    | some (.symlink t) => resolve fs fuel t
    | some n => .ok (p, n)) = _
  rw [h]

theorem resolve_get_nonlink {fs : Fs} {p : String} {n : Node}
    (h : fs.get p = some n) (hn : ∀ t, n ≠ .symlink t) (fuel : Nat) :
    resolve fs (fuel + 1) p = .ok (p, n) := by
  cases n with
  | file bs => exact resolve_get_file h fuel
  | dir => exact resolve_get_dir h fuel
  | symlink t => exact absurd rfl (hn t)

/-! ## Helper lemmas about the filesystem operations -/

theorem Fs.mem_erase_ne {fs : Fs} {p : String} : ∀ kv ∈ fs.erase p, kv.1 ≠ p := by
  intro kv h
  have := (List.mem_filter.mp h).2
  simpa using this

theorem Fs.mem_erase_subset {fs : Fs} {p : String} : ∀ kv ∈ fs.erase p, kv ∈ fs :=
  fun _ h => (List.mem_filter.mp h).1

theorem symlinkF_ok {fs : Fs} {target p : String}
    (h1 : fs.get p = none) (h2 : fs.get (parentOf p) = some .dir) :
    symlinkF fs target p = .ok (fs.insert p (.symlink target)) := by
  unfold symlinkF
  rw [h1]
  rw [if_neg (by simp)]
  rw [h2]

theorem renameF_ok {fs : Fs} {src dst : String} {n : Node}
    (hsrc : fs.get src = some n)
    (hdst : fs.get dst = none ∨ ∃ t, fs.get dst = some (.symlink t)) :
    renameF fs src dst = .ok (movePre (fs.erase dst) src dst) := by
  unfold renameF
  rw [hsrc]
  rcases hdst with h | ⟨t, h⟩ <;> rw [h]

theorem strHasPre_self_slash (p : String) : strHasPre p (p ++ "/") = false := by
  apply strHasPre_false_of_shorter
  rw [String.data_append]
  simp

/-- Full characterization of the tail of `Commit` (temporary symlink,
rename, best-effort delete of the old target) on states where the
temporary name is free, its partition directory exists, and the canonical
name holds no directory. -/
theorem commitCont_spec (fs : Fs) (clk : Clock) (path dest old tmp : String)
    (htmpdef : tmp = dest ++ "." ++ intHex (clk.cur + clk.step))
    (htmp : fs.get tmp = none)
    (hpdir : fs.get (parentOf tmp) = some .dir)
    (hch : fs.hasChild tmp = false)
    (hdest : fs.get dest = none ∨ ∃ t, fs.get dest = some (.symlink t)) :
    (commitCont ⟨fs, clk⟩ path dest old).2 = .ok dest ∧
    (commitCont ⟨fs, clk⟩ path dest old).1.clk = ⟨clk.cur + clk.step, clk.step⟩ ∧
    ∀ q, Fs.get (commitCont ⟨fs, clk⟩ path dest old).1.fs q =
      if old ≠ "" ∧ underB q old = true then none
      else if q = dest then some (.symlink path)
      else if q = tmp then none
      else fs.get q := by
  subst htmpdef
  have hne_td : (dest ++ "." ++ intHex (clk.cur + clk.step)) ≠ dest :=
    fun h => string_ne_dotext dest (intHex _) h.symm
  have hget_tmp1 : Fs.get (fs.insert (dest ++ "." ++ intHex (clk.cur + clk.step))
      (.symlink path)) (dest ++ "." ++ intHex (clk.cur + clk.step))
      = some (.symlink path) := by
    rw [Fs.get_insert, if_pos rfl]
  have hget_dest1 : Fs.get (fs.insert (dest ++ "." ++ intHex (clk.cur + clk.step))
      (.symlink path)) dest = fs.get dest := by
    rw [Fs.get_insert, if_neg (fun h : dest = _ => hne_td h.symm)]
  have hdest1 : Fs.get (fs.insert (dest ++ "." ++ intHex (clk.cur + clk.step))
        (.symlink path)) dest = none ∨
      ∃ t, Fs.get (fs.insert (dest ++ "." ++ intHex (clk.cur + clk.step))
        (.symlink path)) dest = some (.symlink t) := by
    rw [hget_dest1]; exact hdest
  have hstep : commitCont ⟨fs, clk⟩ path dest old =
      ({ fs :=
          if old != "" then
            Fs.removeAll (movePre (Fs.erase (fs.insert
              (dest ++ "." ++ intHex (clk.cur + clk.step)) (.symlink path)) dest)
              (dest ++ "." ++ intHex (clk.cur + clk.step)) dest) old
          else
            movePre (Fs.erase (fs.insert
              (dest ++ "." ++ intHex (clk.cur + clk.step)) (.symlink path)) dest)
              (dest ++ "." ++ intHex (clk.cur + clk.step)) dest,
         clk := ⟨clk.cur + clk.step, clk.step⟩ }, .ok dest) := by
    unfold commitCont
    simp only [Clock.now]
    rw [symlinkF_ok htmp hpdir]
    dsimp only
    rw [renameF_ok hget_tmp1 hdest1]
  have hmove : ∀ q, Fs.get (movePre (Fs.erase (fs.insert
      (dest ++ "." ++ intHex (clk.cur + clk.step)) (.symlink path)) dest)
      (dest ++ "." ++ intHex (clk.cur + clk.step)) dest) q =
      if q = dest then some (.symlink path)
      else if q = dest ++ "." ++ intHex (clk.cur + clk.step) then none
      else fs.get q := by
    intro q
    rw [Fs.get_movePre _ _ _ _ hne_td Fs.mem_erase_ne]
    · rw [show Fs.get (Fs.erase (fs.insert
        (dest ++ "." ++ intHex (clk.cur + clk.step)) (.symlink path)) dest)
          (dest ++ "." ++ intHex (clk.cur + clk.step))
          = some (.symlink path) by
        rw [Fs.get_erase, if_neg hne_td, hget_tmp1]]
      by_cases h1 : q = dest
      · rw [if_pos h1, if_pos h1]
      · rw [if_neg h1, if_neg h1]
        by_cases h2 : q = dest ++ "." ++ intHex (clk.cur + clk.step)
        · rw [if_pos h2, if_pos h2]
        · rw [if_neg h2, if_neg h2, Fs.get_erase, if_neg h1, Fs.get_insert,
            if_neg h2]
    · intro kv hkv
      have hkv2 := Fs.mem_erase_subset kv hkv
      rw [Fs.insert_eq_cons] at hkv2
      rcases List.mem_cons.mp hkv2 with rfl | hkv3
      · exact strHasPre_self_slash _
      · exact Fs.hasChild_false hch kv (Fs.mem_erase_subset kv hkv3)
  refine ⟨by rw [hstep], by rw [hstep], ?_⟩
  intro q
  rw [hstep]
  by_cases hold : old = ""
  · subst hold
    rw [show (("" : String) != "") = false by rfl]
    rw [if_neg (by simp : ¬ (("" : String) ≠ "" ∧ underB q "" = true))]
    exact hmove q
  · rw [if_pos (by simpa using hold)]
    show Fs.get (Fs.removeAll _ old) q = _
    rw [Fs.get_removeAll]
    by_cases hu : underB q old
    · rw [if_pos hu, if_pos ⟨hold, hu⟩]
    · rw [if_neg hu, if_neg (fun h => hu h.2), hmove q]

theorem readlinkF_none {fs : Fs} {p : String} (h : fs.get p = none) :
    readlinkF fs p = .error (.notFound p) := by
  unfold readlinkF
  rw [h]

theorem readlinkF_link {fs : Fs} {p t : String} (h : fs.get p = some (.symlink t)) :
    readlinkF fs p = .ok t := by
  unfold readlinkF
  rw [h]

theorem txValid_of_data {s : String} (h : s.data ≠ []) : txValid s = true := by
  rw [txValid, bne_iff_ne]
  intro he
  exact h (string_eq_iff_data.mp he ▸ rfl)

theorem append_dot_data (dg suf : String) :
    (dg ++ "." ++ suf).data = dg.data ++ '.' :: suf.data := by
  rw [String.data_append, String.data_append, List.append_assoc]
  rfl

theorem stagedPath_eq (r dg suf : String) :
    stagedPath r dg suf = pubPath r dg ++ "." ++ suf := by
  simp [stagedPath, pubPath, pjoin3, String.append_assoc]

theorem strHasPre_pjoin3 (r a b : String) : strHasPre (pjoin3 r a b) r = true := by
  rw [show pjoin3 r a b = r ++ ("/" ++ (a ++ ("/" ++ b))) by
    simp [pjoin3, String.append_assoc]]
  exact strHasPre_append_self r _

theorem tmp_as_pjoin (r dg ih : String) :
    pubPath r dg ++ "." ++ ih = pjoin r (strTake dg 2) ++ "/" ++ (dg ++ "." ++ ih) := by
  simp [pubPath, pjoin3, pjoin, String.append_assoc]

/-- Full characterization of a successful `Commit` of a token
`digest ++ "." ++ suffix` in a state where the staged object exists, the
partition directory exists, the freshly minted temporary name is free and
childless, and the canonical name holds no directory.  The published
pointer afterwards references the staged object; the old target (if the
pointer was previously a symlink with a nonempty target) is recursively
removed; everything outside the old target's subtree, the canonical name
and the temporary name is untouched. -/
theorem commit_spec (r dg suf : String) (fs : Fs) (clk : Clock) (nd : Node)
    (hdg2 : 2 ≤ dg.data.length) (hdgs : ∀ c ∈ dg.data, c ≠ '/')
    (hsufc : ∀ c ∈ suf.data, c ≠ '.' ∧ c ≠ '/')
    (hnd : fs.get (stagedPath r dg suf) = some nd) (hndl : ∀ t, nd ≠ .symlink t)
    (hpart : fs.get (pjoin r (strTake dg 2)) = some .dir)
    (htmp : fs.get (pubPath r dg ++ "." ++ intHex (clk.cur + clk.step)) = none)
    (hch : fs.hasChild (pubPath r dg ++ "." ++ intHex (clk.cur + clk.step)) = false)
    (hdest : fs.get (pubPath r dg) = none ∨
      ∃ t, fs.get (pubPath r dg) = some (.symlink t)) :
    (commit ⟨r⟩ ⟨fs, clk⟩ (dg ++ "." ++ suf)).2 = .ok (pubPath r dg) ∧
    (commit ⟨r⟩ ⟨fs, clk⟩ (dg ++ "." ++ suf)).1.clk = ⟨clk.cur + clk.step, clk.step⟩ ∧
    ∀ q, Fs.get (commit ⟨r⟩ ⟨fs, clk⟩ (dg ++ "." ++ suf)).1.fs q =
      if oldTargetOf fs (pubPath r dg) ≠ "" ∧
          underB q (oldTargetOf fs (pubPath r dg)) = true then none
      else if q = pubPath r dg then some (.symlink (stagedPath r dg suf))
      else if q = pubPath r dg ++ "." ++ intHex (clk.cur + clk.step) then none
      else fs.get q := by
  have htx := append_dot_data dg suf
  have hvalid : txValid (dg ++ "." ++ suf) = true :=
    txValid_of_data (by rw [htx]; simp)
  have hlen : ¬ ((dg ++ "." ++ suf).data.length < 2) := by
    rw [htx, List.length_append, List.length_cons]
    omega
  have htake : strTake (dg ++ "." ++ suf) 2 = strTake dg 2 := by
    rw [String.append_assoc]
    exact strTake_append hdg2
  have htxpath : txPath r (dg ++ "." ++ suf) = .ok (stagedPath r dg suf) := by
    unfold txPath
    rw [hvalid]
    rw [if_neg (by simp)]
    rw [if_neg hlen, htake]
    rfl
  have hhaspre : strHasPre (stagedPath r dg suf) r = true := strHasPre_pjoin3 r _ _
  have hext : goExt (stagedPath r dg suf) = "." ++ suf := by
    rw [stagedPath_eq]
    exact goExt_append_dot _ _ hsufc
  have hdest_eq : strTrimSuf (stagedPath r dg suf) ("." ++ suf) = pubPath r dg := by
    rw [stagedPath_eq, String.append_assoc]
    exact strTrimSuf_append _ _
  have hres : resolve fs 40 (stagedPath r dg suf) = .ok (stagedPath r dg suf, nd) :=
    resolve_get_nonlink hnd hndl 39
  have hslashnm : ∀ c ∈ (dg ++ "." ++ intHex (clk.cur + clk.step)).data, c ≠ '/' := by
    rw [append_dot_data]
    intro c hc
    rcases List.mem_append.mp hc with h | h
    · exact hdgs c h
    · rcases List.mem_cons.mp h with rfl | h
      · decide
      · exact (intHex_noDotSlash _ c h).2
  have hparent : parentOf (pubPath r dg ++ "." ++ intHex (clk.cur + clk.step)) =
      pjoin r (strTake dg 2) := by
    rw [tmp_as_pjoin]
    exact parentOf_pjoin _ _ hslashnm
  have hpdir2 : fs.get (parentOf (pubPath r dg ++ "." ++ intHex (clk.cur + clk.step)))
      = some .dir := by
    rw [hparent]
    exact hpart
  have hcommit_eq : commit ⟨r⟩ ⟨fs, clk⟩ (dg ++ "." ++ suf) =
      commitCont ⟨fs, clk⟩ (stagedPath r dg suf) (pubPath r dg)
        (oldTargetOf fs (pubPath r dg)) := by
    unfold commit
    rw [hvalid]
    rw [if_neg (by simp)]
    rw [htxpath]
    dsimp only
    rw [hhaspre]
    rw [if_neg (by simp)]
    rw [hext, hdest_eq, hres]
    dsimp only
    rcases hdest with h | ⟨t, h⟩
    · rw [readlinkF_none h]
      dsimp only [isNotExistE]
      rw [if_pos rfl]
      rw [show oldTargetOf fs (pubPath r dg) = "" by unfold oldTargetOf; rw [h]]
    · rw [readlinkF_link h]
      dsimp only
      rw [show oldTargetOf fs (pubPath r dg) = t by unfold oldTargetOf; rw [h]]
  rw [hcommit_eq]
  exact commitCont_spec fs clk (stagedPath r dg suf) (pubPath r dg)
    (oldTargetOf fs (pubPath r dg))
    (pubPath r dg ++ "." ++ intHex (clk.cur + clk.step)) rfl htmp hpdir2 hch hdest

theorem append_slash_data (a b : String) :
    (a ++ "/" ++ b).data = a.data ++ '/' :: b.data := by
  rw [String.data_append, String.data_append, List.append_assoc]
  rfl

theorem listLead_slash_false {l1 l2 : List Char} (h : ∀ c ∈ l1, c ≠ '/') :
    listLead (l2 ++ ['/']) l1 = false := by
  cases hl : listLead (l2 ++ ['/']) l1
  · rfl
  · exact absurd rfl (h '/' (listLead_mem hl '/' (by simp)))

theorem strHasPre_dot_dot (p a b : String) (hb : ∀ c ∈ b.data, c ≠ '/') :
    strHasPre (p ++ "." ++ b) (p ++ "." ++ a ++ "/") = false := by
  rw [strHasPre]
  rw [show (p ++ "." ++ a ++ "/").data = (p.data ++ ['.']) ++ (a.data ++ ['/']) by
    rw [String.data_append, String.data_append, String.data_append]
    simp]
  rw [show (p ++ "." ++ b).data = (p.data ++ ['.']) ++ b.data by
    rw [append_dot_data]
    simp]
  rw [listLead_append_same]
  exact listLead_slash_false hb

theorem strHasPre_slash_len {a b : String} (h : a.data.length ≤ b.data.length) :
    strHasPre a (b ++ "/") = false := by
  apply strHasPre_false_of_shorter
  rw [String.data_append]
  simp only [List.length_append]
  show _ < _ + ("/".data).length
  simp only [show ("/" : String).data = ['/'] from rfl, List.length_cons,
    List.length_nil]
  omega

theorem Fs.hasChild_erase_false {fs : Fs} {p q : String}
    (h : fs.hasChild q = false) : (fs.erase p).hasChild q = false := by
  rw [Fs.hasChild, List.any_eq_false]
  intro kv hkv
  have := Fs.hasChild_false h kv (Fs.mem_erase_subset kv hkv)
  simpa using this

theorem Fs.hasChild_insert_false {fs : Fs} {p q : String} {n : Node}
    (h : fs.hasChild q = false) (hp : strHasPre p (q ++ "/") = false) :
    (fs.insert p n).hasChild q = false := by
  rw [Fs.insert_eq_cons, Fs.hasChild, List.any_eq_false]
  intro kv hkv
  rcases List.mem_cons.mp hkv with rfl | hkv2
  · simpa using hp
  · have := Fs.hasChild_false (Fs.hasChild_erase_false h) kv hkv2
    simpa using this

theorem pubPath_eq_pjoin (r dg : String) :
    pubPath r dg = pjoin r (strTake dg 2) ++ "/" ++ dg := by
  simp [pubPath, pjoin3, pjoin, String.append_assoc]

theorem append_dot_cancel {p a b : String} (h : p ++ "." ++ a = p ++ "." ++ b) :
    a = b := by
  have hd := string_eq_iff_data.mp h
  rw [append_dot_data, append_dot_data] at hd
  have := List.append_cancel_left hd
  exact string_eq_iff_data.mpr (List.cons_injective.eq_iff.mp this)

theorem strTake_mem {s : String} {n : Nat} {c : Char}
    (h : c ∈ (strTake s n).data) : c ∈ s.data :=
  List.mem_of_mem_take h

theorem string_ne_pjoin (d nm : String) : d ≠ d ++ "/" ++ nm := by
  rw [String.append_assoc]
  apply string_ne_append
  rw [String.data_append]
  simp

/-- C1: for a valid Transaction token `digest(key) ++ "." ++ suffix` whose
timestamp-suffixed StagedObject exists under the cache root (with the
reachable-state side conditions: the partition directory exists, the
freshly minted temporary name is free and childless, and the canonical
name holds either nothing or a pointer to a previous generation),
`Commit` creates a fresh timestamp-suffixed temporary symlink referencing
the StagedObject, renames it onto the canonical name `root/digest[:2]/digest`
(replacing any prior pointer — the rename is the single state change that
swaps the pointer, the model being sequential), best-effort deletes the
previously published target, and returns the canonical published path;
afterwards `Open` for that key resolves to the newly committed object, the
old target is gone, and nothing outside the canonical name, the temporary
name and the old target's subtree changed. -/
theorem C1_commit_publish (r key suf : String) (fs : Fs) (clk : Clock) (nd : Node)
    (hsufhex : ∀ c ∈ suf.data, isHexDigitB c = true)
    (hnd : fs.get (stagedPath r (hashHex key) suf) = some nd)
    (hndl : ∀ t, nd ≠ .symlink t)
    (hpart : fs.get (pjoin r (strTake (hashHex key) 2)) = some .dir)
    (htmp : fs.get (pubPath r (hashHex key) ++ "." ++ intHex (clk.cur + clk.step)) = none)
    (hch : fs.hasChild (pubPath r (hashHex key) ++ "." ++ intHex (clk.cur + clk.step)) = false)
    (hdest : fs.get (pubPath r (hashHex key)) = none ∨
      ∃ t, fs.get (pubPath r (hashHex key)) = some (.symlink t) ∧ t ≠ "" ∧
        underB (pubPath r (hashHex key)) t = false ∧
        underB (stagedPath r (hashHex key) suf) t = false) :
    (commit ⟨r⟩ ⟨fs, clk⟩ (hashHex key ++ "." ++ suf)).2 = .ok (pubPath r (hashHex key)) ∧
    Fs.get (commit ⟨r⟩ ⟨fs, clk⟩ (hashHex key ++ "." ++ suf)).1.fs (pubPath r (hashHex key))
      = some (.symlink (stagedPath r (hashHex key) suf)) ∧
    Fs.get (commit ⟨r⟩ ⟨fs, clk⟩ (hashHex key ++ "." ++ suf)).1.fs
      (stagedPath r (hashHex key) suf) = some nd ∧
    openOp ⟨r⟩ (commit ⟨r⟩ ⟨fs, clk⟩ (hashHex key ++ "." ++ suf)).1 key
      = .ok (stagedPath r (hashHex key) suf, nd) ∧
    (∀ t, fs.get (pubPath r (hashHex key)) = some (.symlink t) → t ≠ "" →
      Fs.get (commit ⟨r⟩ ⟨fs, clk⟩ (hashHex key ++ "." ++ suf)).1.fs t = none) ∧
    (∀ q, q ≠ pubPath r (hashHex key) →
      q ≠ pubPath r (hashHex key) ++ "." ++ intHex (clk.cur + clk.step) →
      (∀ t, fs.get (pubPath r (hashHex key)) = some (.symlink t) → underB q t = false) →
      Fs.get (commit ⟨r⟩ ⟨fs, clk⟩ (hashHex key ++ "." ++ suf)).1.fs q = fs.get q) := by
  have hdest' : fs.get (pubPath r (hashHex key)) = none ∨
      ∃ t, fs.get (pubPath r (hashHex key)) = some (.symlink t) := by
    rcases hdest with h | ⟨t, h, _, _, _⟩
    · exact Or.inl h
    · exact Or.inr ⟨t, h⟩
  obtain ⟨hok, hclk, G⟩ := commit_spec r (hashHex key) suf fs clk nd
    (by rw [hashHex_len]; omega)
    (fun c hc => (hashHex_noDotSlash key c hc).2)
    (fun c hc => ⟨isHex_ne_dot c (hsufhex c hc), isHex_ne_slash c (hsufhex c hc)⟩)
    hnd hndl hpart htmp hch hdest'
  have hold_cond : ∀ q, underB q (oldTargetOf fs (pubPath r (hashHex key))) = false →
      ¬ (oldTargetOf fs (pubPath r (hashHex key)) ≠ "" ∧
        underB q (oldTargetOf fs (pubPath r (hashHex key))) = true) :=
    fun q h hc => by rw [h] at hc; exact absurd hc.2 (by simp)
  have hpub_ne_staged : stagedPath r (hashHex key) suf ≠ pubPath r (hashHex key) := by
    rw [stagedPath_eq]
    exact fun h => string_ne_dotext (pubPath r (hashHex key)) suf h.symm
  have hstaged_ne_tmp : stagedPath r (hashHex key) suf
      ≠ pubPath r (hashHex key) ++ "." ++ intHex (clk.cur + clk.step) := by
    intro h
    rw [h] at hnd
    rw [hnd] at htmp
    cases htmp
  -- the old-target condition at the pointer, the staged object and any frame path
  have hcond_at : ∀ q, underB q (oldTargetOf fs (pubPath r (hashHex key))) = false ∨
      oldTargetOf fs (pubPath r (hashHex key)) = "" →
      (if oldTargetOf fs (pubPath r (hashHex key)) ≠ "" ∧
          underB q (oldTargetOf fs (pubPath r (hashHex key))) = true then
        (none : Option Node)
      else if q = pubPath r (hashHex key) then
        some (.symlink (stagedPath r (hashHex key) suf))
      else if q = pubPath r (hashHex key) ++ "." ++ intHex (clk.cur + clk.step) then none
      else fs.get q) =
      (if q = pubPath r (hashHex key) then
        some (.symlink (stagedPath r (hashHex key) suf))
      else if q = pubPath r (hashHex key) ++ "." ++ intHex (clk.cur + clk.step) then none
      else fs.get q) := by
    intro q hq
    rcases hq with h | h
    · rw [if_neg (hold_cond q h)]
    · rw [if_neg (fun hc => hc.1 h)]
  have holdspec : ∀ q, underB q (oldTargetOf fs (pubPath r (hashHex key))) = false ∨
      oldTargetOf fs (pubPath r (hashHex key)) = "" →
      ∀ t, fs.get (pubPath r (hashHex key)) = some (.symlink t) → underB q t = false ∨ t = "" := by
    intro q hq t ht
    have : oldTargetOf fs (pubPath r (hashHex key)) = t := by
      unfold oldTargetOf
      rw [ht]
    rcases hq with h | h
    · exact Or.inl (this ▸ h)
    · exact Or.inr (this ▸ h)
  -- which old-target condition holds in each hdest case
  have hsafe : ∀ q, (∀ t, fs.get (pubPath r (hashHex key)) = some (.symlink t) →
      underB q t = false) →
      underB q (oldTargetOf fs (pubPath r (hashHex key))) = false ∨
      oldTargetOf fs (pubPath r (hashHex key)) = "" := by
    intro q hq
    rcases hdest' with h | ⟨t, h⟩
    · right
      unfold oldTargetOf
      rw [h]
    · left
      rw [show oldTargetOf fs (pubPath r (hashHex key)) = t by unfold oldTargetOf; rw [h]]
      exact hq t h
  have hsafe_pub : underB (pubPath r (hashHex key))
      (oldTargetOf fs (pubPath r (hashHex key))) = false ∨
      oldTargetOf fs (pubPath r (hashHex key)) = "" := by
    apply hsafe
    intro t ht
    rcases hdest with h | ⟨t2, h2, _, hu, _⟩
    · rw [h] at ht; cases ht
    · rw [h2] at ht
      cases ht
      exact hu
  have hsafe_staged : underB (stagedPath r (hashHex key) suf)
      (oldTargetOf fs (pubPath r (hashHex key))) = false ∨
      oldTargetOf fs (pubPath r (hashHex key)) = "" := by
    apply hsafe
    intro t ht
    rcases hdest with h | ⟨t2, h2, _, _, hu⟩
    · rw [h] at ht; cases ht
    · rw [h2] at ht
      cases ht
      exact hu
  have hgetpub : Fs.get (commit ⟨r⟩ ⟨fs, clk⟩ (hashHex key ++ "." ++ suf)).1.fs
      (pubPath r (hashHex key)) = some (.symlink (stagedPath r (hashHex key) suf)) := by
    rw [G, hcond_at _ hsafe_pub, if_pos rfl]
  have hgetstaged : Fs.get (commit ⟨r⟩ ⟨fs, clk⟩ (hashHex key ++ "." ++ suf)).1.fs
      (stagedPath r (hashHex key) suf) = some nd := by
    rw [G, hcond_at _ hsafe_staged, if_neg hpub_ne_staged, if_neg hstaged_ne_tmp]
    exact hnd
  refine ⟨hok, hgetpub, hgetstaged, ?_, ?_, ?_⟩
  · dsimp only [openOp]
    have h40 : resolve (commit ⟨r⟩ ⟨fs, clk⟩ (hashHex key ++ "." ++ suf)).1.fs 40
        (pjoin3 r (strTake (hashHex key) 2) (hashHex key))
        = resolve (commit ⟨r⟩ ⟨fs, clk⟩ (hashHex key ++ "." ++ suf)).1.fs 39
          (stagedPath r (hashHex key) suf) :=
      resolve_get_link hgetpub 39
    have h39 : resolve (commit ⟨r⟩ ⟨fs, clk⟩ (hashHex key ++ "." ++ suf)).1.fs 39
        (stagedPath r (hashHex key) suf)
        = .ok (stagedPath r (hashHex key) suf, nd) :=
      resolve_get_nonlink hgetstaged hndl 38
    rw [h40, h39]
  · intro t ht htne
    have : oldTargetOf fs (pubPath r (hashHex key)) = t := by
      unfold oldTargetOf
      rw [ht]
    rw [G, if_pos ⟨this ▸ htne, this ▸ underB_self t⟩]
  · intro q hq1 hq2 hq3
    rw [G, hcond_at _ (hsafe q hq3), if_neg hq1, if_neg hq2]

/-- Witness for C1 at a concrete one-entry cache. -/
theorem C1_commit_publish_witness :
    (commit ⟨"/r"⟩ ⟨[(pjoin "/r" (strTake (hashHex "k") 2), .dir),
        (stagedPath "/r" (hashHex "k") "1", .file [7])], ⟨5, 1⟩⟩
      (hashHex "k" ++ "." ++ "1")).2 = .ok (pubPath "/r" (hashHex "k")) ∧
    openOp ⟨"/r"⟩ (commit ⟨"/r"⟩ ⟨[(pjoin "/r" (strTake (hashHex "k") 2), .dir),
        (stagedPath "/r" (hashHex "k") "1", .file [7])], ⟨5, 1⟩⟩
      (hashHex "k" ++ "." ++ "1")).1 "k"
      = .ok (stagedPath "/r" (hashHex "k") "1", .file [7]) := by
  have h := C1_commit_publish "/r" "k" "1"
    [(pjoin "/r" (strTake (hashHex "k") 2), .dir),
     (stagedPath "/r" (hashHex "k") "1", .file [7])] ⟨5, 1⟩ (.file [7])
    (by decide) (by decide) (by intro t; simp) (by decide) (by decide) (by decide)
    (Or.inl (by decide))
  exact ⟨h.1, h.2.2.2.1⟩

/-- C3 counterexample: a Transaction already consumed by a successful
Commit is not rejected — a second Commit of the same token succeeds again
(returning the canonical path instead of an InvalidTransaction error) and
changes the on-disk state: the best-effort deletion of the old target now
deletes the very object the pointer references, leaving it dangling. -/
theorem C3_counterexample :
    (commit ⟨"/r"⟩ ((commit ⟨"/r"⟩
        ⟨[("/r", .dir), ("/r/ab", .dir), ("/r/ab/ab.1", .file [7])], ⟨5, 0⟩⟩
        "ab.1").1) "ab.1").2 = .ok "/r/ab/ab" ∧
    Fs.get (commit ⟨"/r"⟩ ((commit ⟨"/r"⟩
        ⟨[("/r", .dir), ("/r/ab", .dir), ("/r/ab/ab.1", .file [7])], ⟨5, 0⟩⟩
        "ab.1").1) "ab.1").1.fs "/r/ab/ab.1" = none ∧
    Fs.get ((commit ⟨"/r"⟩
        ⟨[("/r", .dir), ("/r/ab", .dir), ("/r/ab/ab.1", .file [7])], ⟨5, 0⟩⟩
        "ab.1").1).fs "/r/ab/ab.1" = some (.file [7]) := by
  decide

/-- C3 amended: Commit of the empty token returns the InvalidTransaction
error without touching the state, and a token consumed by Rollback fails a
subsequent Commit with NotFound (the staged object is gone) without
changing the state; but the code keeps no record of consumed tokens, so a
second Commit of an already-committed token is not rejected (see the
counterexample). -/
theorem C3_invalid_transaction :
    (∀ (c : Cache) (st : St), commit c st "" = (st, .err .invalidTx)) ∧
    (∀ (c : Cache) (st : St) (tx : String), tx ≠ "" → 2 ≤ tx.data.length →
      (commit c (rollback c st tx).1 tx).1 = (rollback c st tx).1 ∧
      (commit c (rollback c st tx).1 tx).2 =
        .err (.notFound (pjoin3 c.root (strTake tx 2) tx))) := by
  constructor
  · intro c st
    rfl
  · intro c st tx h hlen2
    have hdata : tx.data ≠ [] := fun hd => h (string_eq_iff_data.mpr (by rw [hd]))
    have hvalid : txValid tx = true := txValid_of_data hdata
    have hlen : ¬ (tx.data.length < 2) := by omega
    have htxpath : txPath c.root tx = .ok (pjoin3 c.root (strTake tx 2) tx) := by
      unfold txPath
      rw [hvalid]
      rw [if_neg (by simp)]
      rw [if_neg hlen]
    have hrb : rollback c st tx =
        ({ st with fs := st.fs.removeAll (pjoin3 c.root (strTake tx 2) tx) }, .ok ()) := by
      unfold rollback
      rw [hvalid]
      rw [if_neg (by simp)]
      rw [htxpath]
    have hresolve : resolve (st.fs.removeAll (pjoin3 c.root (strTake tx 2) tx)) 40
        (pjoin3 c.root (strTake tx 2) tx)
        = .error (.notFound (pjoin3 c.root (strTake tx 2) tx)) :=
      resolve_get_none (by rw [Fs.get_removeAll, if_pos (underB_self _)]) 39
    have hcm : commit c (rollback c st tx).1 tx =
        ((rollback c st tx).1,
          .err (.notFound (pjoin3 c.root (strTake tx 2) tx))) := by
      unfold commit
      rw [hvalid]
      rw [if_neg (by simp)]
      rw [htxpath]
      dsimp only
      rw [strHasPre_pjoin3]
      rw [if_neg (by simp)]
      rw [hrb]
      dsimp only
      rw [hresolve]
    rw [hcm]
    exact ⟨rfl, rfl⟩

/-- Witness for the amended C3. -/
theorem C3_invalid_transaction_witness :
    commit ⟨"/r"⟩ ⟨[], ⟨0, 0⟩⟩ "" = (⟨[], ⟨0, 0⟩⟩, .err .invalidTx) ∧
    (commit ⟨"/r"⟩ (rollback ⟨"/r"⟩ ⟨[("/r", .dir)], ⟨0, 0⟩⟩ "ab.1").1 "ab.1").2 =
      .err (.notFound (pjoin3 "/r" (strTake "ab.1" 2) "ab.1")) :=
  ⟨C3_invalid_transaction.1 ⟨"/r"⟩ ⟨[], ⟨0, 0⟩⟩,
   (C3_invalid_transaction.2 ⟨"/r"⟩ ⟨[("/r", .dir)], ⟨0, 0⟩⟩ "ab.1"
     (by decide) (by decide)).2⟩

/-- C4 counterexample: a caller-supplied one-byte Transaction token is
`Valid()` (non-empty), but `Transaction.path`'s byte slice `string(t)[:2]`
is out of range, so Commit and Rollback panic instead of returning an
error value. -/
theorem C4_counterexample :
    (commit ⟨"/r"⟩ ⟨[("/r", .dir)], ⟨0, 0⟩⟩ "x").2 = .panics "slice bounds out of range" ∧
    (rollback ⟨"/r"⟩ ⟨[("/r", .dir)], ⟨0, 0⟩⟩ "x").2 = .panics "slice bounds out of range" := by
  decide

theorem commitCont_no_panic (st : St) (path dest old : String) :
    (commitCont st path dest old).2.isPanics = false := by
  unfold commitCont
  dsimp only [Clock.now]
  split
  · rfl
  · split <;> rfl

theorem hashTs_data (key : String) (now : Int) :
    (hashTs key now).data = (hashHex key).data ++ '.' :: (intHex now).data :=
  append_dot_data _ _

theorem hashTs_noSlash (key : String) (now : Int) :
    ∀ c ∈ (hashTs key now).data, c ≠ '/' := by
  rw [hashTs_data]
  intro c hc
  rcases List.mem_append.mp hc with h | h
  · exact (hashHex_noDotSlash key c h).2
  · rcases List.mem_cons.mp h with rfl | h
    · decide
    · exact (intHex_noDotSlash now c h).2

theorem hashTs_len (key : String) (now : Int) :
    65 ≤ (hashTs key now).data.length := by
  rw [hashTs_data, List.length_append, List.length_cons, hashHex_len]
  omega

theorem txValid_hashTs (key : String) (now : Int) : txValid (hashTs key now) = true :=
  txValid_of_data (by
    intro h
    have := hashTs_len key now
    rw [h] at this
    simp at this)

theorem pathForKey_no_panic (c : Cache) (st : St) (key : String) :
    (pathForKey c st key).2.isPanics = false := by
  unfold pathForKey
  dsimp only [Clock.now]
  split
  · split <;> rfl
  · rfl

theorem pathForKey_ok_shape (c : Cache) (st : St) (key : String) (st1 : St) (p : String)
    (h : pathForKey c st key = (st1, .ok p)) :
    p = pjoin3 c.root (strTake (hashTs key (st.clk.cur + st.clk.step)) 2)
      (hashTs key (st.clk.cur + st.clk.step)) := by
  unfold pathForKey at h
  dsimp only [Clock.now] at h
  split at h
  · split at h
    · cases h
      rfl
    · cases h
  · cases h
    rfl

theorem createOp_no_panic (c : Cache) (st : St) (key : String) :
    (createOp c st key).2.isPanics = false := by
  unfold createOp
  split
  · rename_i st1 m heq
    have := pathForKey_no_panic c st key
    rw [heq] at this
    cases this
  · rfl
  · split <;> rfl

theorem createOp_ok_tx (c : Cache) (st : St) (key : String) (st1 : St)
    (tx f : String) (h : createOp c st key = (st1, .ok (tx, f))) :
    tx = hashTs key (st.clk.cur + st.clk.step) := by
  unfold createOp at h
  split at h
  · cases h
  · cases h
  · rename_i st2 p heq
    split at h
    · cases h
    · cases h
      rw [pathForKey_ok_shape c st key st2 p heq]
      rw [show pjoin3 c.root (strTake (hashTs key (st.clk.cur + st.clk.step)) 2)
            (hashTs key (st.clk.cur + st.clk.step))
          = pjoin c.root (strTake (hashTs key (st.clk.cur + st.clk.step)) 2) ++ "/"
            ++ hashTs key (st.clk.cur + st.clk.step) from rfl]
      exact baseOf_pjoin _ _ (hashTs_noSlash key _)

theorem mkdirOp_no_panic (c : Cache) (st : St) (key : String) :
    (mkdirOp c st key).2.isPanics = false := by
  unfold mkdirOp
  split
  · rename_i st1 m heq
    have := pathForKey_no_panic c st key
    rw [heq] at this
    cases this
  · rfl
  · split <;> rfl

theorem commit_no_panic (c : Cache) (st : St) (tx : String)
    (hlen : 2 ≤ tx.data.length) : (commit c st tx).2.isPanics = false := by
  unfold commit
  dsimp only
  split
  · rfl
  · rename_i hvalid'
    have hval : txValid tx = true := by
      revert hvalid'
      cases txValid tx <;> simp
    split
    · rename_i m heq
      unfold txPath at heq
      rw [hval] at heq
      rw [if_neg (by simp)] at heq
      rw [if_neg (by omega)] at heq
      cases heq
    · rfl
    · split
      · rfl
      · split
        · rfl
        · split
          · split
            · exact commitCont_no_panic _ _ _ _
            · rfl
          · exact commitCont_no_panic _ _ _ _

theorem rollback_no_panic (c : Cache) (st : St) (tx : String)
    (hlen : 2 ≤ tx.data.length) : (rollback c st tx).2.isPanics = false := by
  unfold rollback
  split
  · rfl
  · rename_i hvalid'
    have hval : txValid tx = true := by
      revert hvalid'
      cases txValid tx <;> simp
    split
    · rename_i m heq
      unfold txPath at heq
      rw [hval] at heq
      rw [if_neg (by simp)] at heq
      rw [if_neg (by omega)] at heq
      cases heq
    · rfl
    · rfl

theorem removeCont_no_panic (st : St) (path old : String) :
    (removeCont st path old).2.isPanics = false := by
  unfold removeCont
  split <;> rfl

theorem removeOp_no_panic (c : Cache) (st : St) (key : String) :
    (removeOp c st key).2.isPanics = false := by
  unfold removeOp
  dsimp only
  split
  · split
    · exact removeCont_no_panic _ _ _
    · rfl
  · exact removeCont_no_panic _ _ _

theorem openOp_no_panic (c : Cache) (st : St) (key : String) :
    (openOp c st key).isPanics = false := by
  unfold openOp
  dsimp only
  split <;> rfl

theorem readFileOp_no_panic (c : Cache) (st : St) (key : String) :
    (readFileOp c st key).isPanics = false := by
  unfold readFileOp
  dsimp only
  split <;> rfl

theorem purge_no_panic (c : Cache) (st : St) (older : Int) :
    (purge c st older).2.isPanics = false := by
  unfold purge
  split <;> rfl

theorem purgeKey_no_panic (c : Cache) (st : St) (key : String) (older : Int) :
    (purgeKey c st key older).2.isPanics = false := by
  unfold purgeKey
  dsimp only
  split
  · split <;> rfl
  · split <;> rfl

theorem writeFile_no_panic (c : Cache) (st : St) (key : String) (data : List Nat) :
    (writeFile c st key data).2.isPanics = false := by
  unfold writeFile
  split
  · rename_i st1 m heq
    have := createOp_no_panic c st key
    rw [heq] at this
    cases this
  · rfl
  · rename_i st1 tx f heq
    dsimp only
    split
    · rename_i st3 m heq2
      have htx := createOp_ok_tx c st key st1 tx f heq
      have h2 : 2 ≤ tx.data.length := by
        rw [htx]
        have := hashTs_len key (st.clk.cur + st.clk.step)
        omega
      have := commit_no_panic c { st1 with fs := setContent st1.fs f data } tx h2
      rw [heq2] at this
      cases this
    · rfl
    · rfl

theorem createOrRead_no_panic (c : Cache) (st : St) (key : String) :
    (createOrRead c st key).2.isPanics = false := by
  unfold createOrRead
  split
  · rfl
  · rename_i m heq
    have := openOp_no_panic c st key
    rw [heq] at this
    cases this
  · split
    · rename_i st1 m heq
      have := createOp_no_panic c st key
      rw [heq] at this
      cases this
    · rfl
    · rfl

/-- C4 amended: every public operation returns failures as error values and
never panics, for all keys and for every Transaction token of length at
least two bytes — which covers every token the library itself mints
(64 hex digest characters plus a dot and a hex timestamp).  A caller-forged
non-empty token shorter than two bytes panics in `Transaction.path` via the
out-of-range byte slice `string(t)[:2]` (see the counterexample), so the
claim's "arbitrary non-empty tokens such as a one-character token" fails. -/
theorem C4_no_panic (c : Cache) (st : St) (tx key : String) (data : List Nat)
    (older : Int) (hlen : 2 ≤ tx.data.length) :
    (commit c st tx).2.isPanics = false ∧
    (rollback c st tx).2.isPanics = false ∧
    (openOp c st key).isPanics = false ∧
    (readFileOp c st key).isPanics = false ∧
    (removeOp c st key).2.isPanics = false ∧
    (purge c st older).2.isPanics = false ∧
    (purgeKey c st key older).2.isPanics = false ∧
    (writeFile c st key data).2.isPanics = false ∧
    (createOrRead c st key).2.isPanics = false ∧
    (createOp c st key).2.isPanics = false ∧
    (mkdirOp c st key).2.isPanics = false :=
  ⟨commit_no_panic c st tx hlen, rollback_no_panic c st tx hlen,
   openOp_no_panic c st key, readFileOp_no_panic c st key,
   removeOp_no_panic c st key, purge_no_panic c st older,
   purgeKey_no_panic c st key older, writeFile_no_panic c st key data,
   createOrRead_no_panic c st key, createOp_no_panic c st key,
   mkdirOp_no_panic c st key⟩

/-- Witness for the amended C4. -/
theorem C4_no_panic_witness :
    (commit ⟨"/r"⟩ ⟨[], ⟨0, 0⟩⟩ "ab").2.isPanics = false ∧
    (rollback ⟨"/r"⟩ ⟨[], ⟨0, 0⟩⟩ "ab").2.isPanics = false ∧
    (openOp ⟨"/r"⟩ ⟨[], ⟨0, 0⟩⟩ "k").isPanics = false ∧
    (readFileOp ⟨"/r"⟩ ⟨[], ⟨0, 0⟩⟩ "k").isPanics = false ∧
    (removeOp ⟨"/r"⟩ ⟨[], ⟨0, 0⟩⟩ "k").2.isPanics = false ∧
    (purge ⟨"/r"⟩ ⟨[], ⟨0, 0⟩⟩ 0).2.isPanics = false ∧
    (purgeKey ⟨"/r"⟩ ⟨[], ⟨0, 0⟩⟩ "k" 0).2.isPanics = false ∧
    (writeFile ⟨"/r"⟩ ⟨[], ⟨0, 0⟩⟩ "k" []).2.isPanics = false ∧
    (createOrRead ⟨"/r"⟩ ⟨[], ⟨0, 0⟩⟩ "k").2.isPanics = false ∧
    (createOp ⟨"/r"⟩ ⟨[], ⟨0, 0⟩⟩ "k").2.isPanics = false ∧
    (mkdirOp ⟨"/r"⟩ ⟨[], ⟨0, 0⟩⟩ "k").2.isPanics = false :=
  C4_no_panic ⟨"/r"⟩ ⟨[], ⟨0, 0⟩⟩ "ab" "k" [] 0 (by decide)

theorem Fs.removeAll_idem (fs : Fs) (p : String) :
    (fs.removeAll p).removeAll p = fs.removeAll p := by
  rw [Fs.removeAll, Fs.removeAll, List.filter_filter]
  simp [Bool.and_self]

theorem removeF_link {fs : Fs} {p t : String} (h : fs.get p = some (.symlink t)) :
    removeF fs p = .ok (fs.erase p) := by
  unfold removeF
  rw [h]

theorem removeF_none {fs : Fs} {p : String} (h : fs.get p = none) :
    removeF fs p = .error (.notFound p) := by
  unfold removeF
  rw [h]

/-- C7: for a Transaction token of the shape the library mints
(`digest ++ "." ++ suffix`), Rollback recursively deletes only that
Transaction's StagedObject and nothing else: the PublishedPointer of the
same key and every path outside the staged subtree are untouched, and a
repeated Rollback of the same token succeeds without error and without any
further state change (idempotent). -/
theorem C7_rollback_frame (r dg suf : String) (fs : Fs) (clk : Clock)
    (hdg2 : 2 ≤ dg.data.length) :
    (rollback ⟨r⟩ ⟨fs, clk⟩ (dg ++ "." ++ suf)).2 = .ok () ∧
    (rollback ⟨r⟩ ⟨fs, clk⟩ (dg ++ "." ++ suf)).1.clk = clk ∧
    Fs.get (rollback ⟨r⟩ ⟨fs, clk⟩ (dg ++ "." ++ suf)).1.fs (stagedPath r dg suf)
      = none ∧
    Fs.get (rollback ⟨r⟩ ⟨fs, clk⟩ (dg ++ "." ++ suf)).1.fs (pubPath r dg)
      = fs.get (pubPath r dg) ∧
    (∀ q, underB q (stagedPath r dg suf) = false →
      Fs.get (rollback ⟨r⟩ ⟨fs, clk⟩ (dg ++ "." ++ suf)).1.fs q = fs.get q) ∧
    rollback ⟨r⟩ ((rollback ⟨r⟩ ⟨fs, clk⟩ (dg ++ "." ++ suf)).1) (dg ++ "." ++ suf)
      = ((rollback ⟨r⟩ ⟨fs, clk⟩ (dg ++ "." ++ suf)).1, .ok ()) := by
  have htx := append_dot_data dg suf
  have hvalid : txValid (dg ++ "." ++ suf) = true :=
    txValid_of_data (by rw [htx]; simp)
  have hlen : ¬ ((dg ++ "." ++ suf).data.length < 2) := by
    rw [htx, List.length_append, List.length_cons]
    omega
  have htake : strTake (dg ++ "." ++ suf) 2 = strTake dg 2 := by
    rw [String.append_assoc]
    exact strTake_append hdg2
  have htxpath : txPath r (dg ++ "." ++ suf) = .ok (stagedPath r dg suf) := by
    unfold txPath
    rw [hvalid]
    rw [if_neg (by simp)]
    rw [if_neg hlen, htake]
    rfl
  have hrb : ∀ fs0 : Fs, rollback ⟨r⟩ ⟨fs0, clk⟩ (dg ++ "." ++ suf) =
      (⟨fs0.removeAll (stagedPath r dg suf), clk⟩, .ok ()) := by
    intro fs0
    unfold rollback
    rw [hvalid]
    rw [if_neg (by simp)]
    rw [htxpath]
  refine ⟨by rw [hrb], by rw [hrb], ?_, ?_, ?_, ?_⟩
  · rw [hrb]
    show Fs.get (fs.removeAll _) _ = none
    rw [Fs.get_removeAll, if_pos (underB_self _)]
  · rw [hrb]
    show Fs.get (fs.removeAll _) _ = _
    rw [Fs.get_removeAll, if_neg ?_]
    rw [stagedPath_eq]
    exact fun h => by rw [underB_dotext_left] at h; cases h
  · intro q hq
    rw [hrb]
    show Fs.get (fs.removeAll _) _ = _
    rw [Fs.get_removeAll, if_neg (by rw [hq]; simp)]
  · rw [hrb, hrb]
    rw [Fs.removeAll_idem]

/-- Witness for C7. -/
theorem C7_rollback_frame_witness :
    (rollback ⟨"/r"⟩ ⟨[("/r", .dir), (stagedPath "/r" "ab" "1", .file [7])], ⟨0, 0⟩⟩
      ("ab" ++ "." ++ "1")).2 = .ok () ∧
    Fs.get (rollback ⟨"/r"⟩ ⟨[("/r", .dir), (stagedPath "/r" "ab" "1", .file [7])],
      ⟨0, 0⟩⟩ ("ab" ++ "." ++ "1")).1.fs (stagedPath "/r" "ab" "1") = none :=
  ⟨(C7_rollback_frame "/r" "ab" "1"
      [("/r", .dir), (stagedPath "/r" "ab" "1", .file [7])] ⟨0, 0⟩ (by decide)).1,
   (C7_rollback_frame "/r" "ab" "1"
      [("/r", .dir), (stagedPath "/r" "ab" "1", .file [7])] ⟨0, 0⟩ (by decide)).2.2.1⟩

/-- C8: for a key whose published pointer exists (a symlink with a nonempty
target), Remove reads the target, unlinks the pointer, then recursively
deletes the target, so afterwards neither pointer nor target remains and
Open reports NotFound; everything outside the pointer and the target's
subtree is untouched.  For a key with no published pointer, Remove returns
an error wrapping NotFound and deletes nothing. -/
theorem C8_remove (r key : String) (fs : Fs) (clk : Clock) :
    (∀ t, fs.get (pubPath r (hashHex key)) = some (.symlink t) → t ≠ "" →
      (removeOp ⟨r⟩ ⟨fs, clk⟩ key).2 = .ok () ∧
      Fs.get (removeOp ⟨r⟩ ⟨fs, clk⟩ key).1.fs (pubPath r (hashHex key)) = none ∧
      Fs.get (removeOp ⟨r⟩ ⟨fs, clk⟩ key).1.fs t = none ∧
      openOp ⟨r⟩ (removeOp ⟨r⟩ ⟨fs, clk⟩ key).1 key
        = .err (.notFound (pubPath r (hashHex key))) ∧
      (∀ q, q ≠ pubPath r (hashHex key) → underB q t = false →
        Fs.get (removeOp ⟨r⟩ ⟨fs, clk⟩ key).1.fs q = fs.get q)) ∧
    (fs.get (pubPath r (hashHex key)) = none →
      (removeOp ⟨r⟩ ⟨fs, clk⟩ key).1 = ⟨fs, clk⟩ ∧
      (removeOp ⟨r⟩ ⟨fs, clk⟩ key).2 = .err (.wrapped "failed to remove cache entry"
        (.notFound (pubPath r (hashHex key))))) := by
  constructor
  · intro t ht htne
    have hrm : removeOp ⟨r⟩ ⟨fs, clk⟩ key =
        (⟨((fs.erase (pubPath r (hashHex key))).removeAll t), clk⟩, .ok ()) := by
      unfold removeOp
      dsimp only
      rw [show pjoin3 r (strTake (hashHex key) 2) (hashHex key)
        = pubPath r (hashHex key) from rfl]
      rw [readlinkF_link ht]
      dsimp only
      unfold removeCont
      rw [removeF_link ht]
      dsimp only
      rw [if_pos (by simpa using htne)]
    have hgetpub : Fs.get ((fs.erase (pubPath r (hashHex key))).removeAll t)
        (pubPath r (hashHex key)) = none := by
      rw [Fs.get_removeAll]
      by_cases h : underB (pubPath r (hashHex key)) t
      · rw [if_pos h]
      · rw [if_neg h, Fs.get_erase, if_pos rfl]
    refine ⟨by rw [hrm], by rw [hrm]; exact hgetpub, ?_, ?_, ?_⟩
    · rw [hrm]
      show Fs.get _ t = none
      rw [Fs.get_removeAll, if_pos (underB_self t)]
    · rw [hrm]
      dsimp only [openOp]
      have h40 : resolve ((fs.erase (pubPath r (hashHex key))).removeAll t) 40
          (pjoin3 r (strTake (hashHex key) 2) (hashHex key))
          = .error (.notFound (pubPath r (hashHex key))) :=
        resolve_get_none hgetpub 39
      rw [h40]
    · intro q hq1 hq2
      rw [hrm]
      show Fs.get _ q = _
      rw [Fs.get_removeAll, if_neg (by rw [hq2]; simp), Fs.get_erase, if_neg hq1]
  · intro hnone
    have hrm : removeOp ⟨r⟩ ⟨fs, clk⟩ key =
        (⟨fs, clk⟩, .err (.wrapped "failed to remove cache entry"
          (.notFound (pubPath r (hashHex key))))) := by
      unfold removeOp
      dsimp only
      rw [show pjoin3 r (strTake (hashHex key) 2) (hashHex key)
        = pubPath r (hashHex key) from rfl]
      rw [readlinkF_none hnone]
      dsimp only [isNotExistE]
      rw [if_pos rfl]
      unfold removeCont
      rw [removeF_none hnone]
    exact ⟨by rw [hrm], by rw [hrm]⟩

/-- Witness for C8. -/
theorem C8_remove_witness :
    (removeOp ⟨"/r"⟩ ⟨[(pubPath "/r" (hashHex "k"),
        .symlink (stagedPath "/r" (hashHex "k") "1")),
      (stagedPath "/r" (hashHex "k") "1", .file [3])], ⟨0, 0⟩⟩ "k").2 = .ok () ∧
    Fs.get (removeOp ⟨"/r"⟩ ⟨[(pubPath "/r" (hashHex "k"),
        .symlink (stagedPath "/r" (hashHex "k") "1")),
      (stagedPath "/r" (hashHex "k") "1", .file [3])], ⟨0, 0⟩⟩ "k").1.fs
      (stagedPath "/r" (hashHex "k") "1") = none ∧
    (removeOp ⟨"/r"⟩ ⟨[], ⟨0, 0⟩⟩ "k").2 =
      .err (.wrapped "failed to remove cache entry"
        (.notFound (pubPath "/r" (hashHex "k")))) := by
  have hA := (C8_remove "/r" "k" [(pubPath "/r" (hashHex "k"),
      .symlink (stagedPath "/r" (hashHex "k") "1")),
    (stagedPath "/r" (hashHex "k") "1", .file [3])] ⟨0, 0⟩).1
    (stagedPath "/r" (hashHex "k") "1") (by decide) (by decide)
  have hB := (C8_remove "/r" "k" [] ⟨0, 0⟩).2 (by decide)
  exact ⟨hA.1, hA.2.2.1, hB.2⟩

/-- C9: CreateOrRead attempts Open first; when Open succeeds it returns the
open handle with the empty (invalid) token, and it falls back to Create
exactly when Open fails — and in this model, under the reachable pointer
shape (a pointer, when present, is a symlink to a non-symlink), an Open
failure is always NotFound.  When the fallback Create succeeds its token is
valid, so the returned token is valid if and only if a new entry was
staged. -/
theorem C9_createOrRead (r key : String) (fs : Fs) (clk : Clock) :
    (∀ f, openOp ⟨r⟩ ⟨fs, clk⟩ key = .ok f →
      createOrRead ⟨r⟩ ⟨fs, clk⟩ key = (⟨fs, clk⟩, .ok ("", f)) ∧
      txValid "" = false) ∧
    (∀ e, openOp ⟨r⟩ ⟨fs, clk⟩ key = .err e →
      (∀ st1 em, createOp ⟨r⟩ ⟨fs, clk⟩ key = (st1, .err em) →
        createOrRead ⟨r⟩ ⟨fs, clk⟩ key = (st1, .err em)) ∧
      (∀ st1 tx f2, createOp ⟨r⟩ ⟨fs, clk⟩ key = (st1, .ok (tx, f2)) →
        createOrRead ⟨r⟩ ⟨fs, clk⟩ key = (st1, .ok (tx, (f2, .file []))) ∧
        txValid tx = true)) ∧
    ((∀ t, fs.get (pubPath r (hashHex key)) = some (.symlink t) →
        ∃ nd, fs.get t = some nd ∧ ∀ u, nd ≠ .symlink u) →
      ∀ e, openOp ⟨r⟩ ⟨fs, clk⟩ key = .err e → isNotExistE e = true) := by
  refine ⟨?_, ?_, ?_⟩
  · intro f hopen
    constructor
    · unfold createOrRead
      rw [hopen]
    · rfl
  · intro e hopen
    constructor
    · intro st1 em hcr
      unfold createOrRead
      rw [hopen, hcr]
    · intro st1 tx f2 hcr
      constructor
      · unfold createOrRead
        rw [hopen, hcr]
      · rw [createOp_ok_tx ⟨r⟩ ⟨fs, clk⟩ key st1 tx f2 hcr]
        exact txValid_hashTs key _
  · intro hshape e hopen
    dsimp only [openOp] at hopen
    rw [show pjoin3 r (strTake (hashHex key) 2) (hashHex key)
      = pubPath r (hashHex key) from rfl] at hopen
    cases hget : fs.get (pubPath r (hashHex key)) with
    | none =>
      rw [resolve_get_none hget 39] at hopen
      cases hopen
      rfl
    | some nd =>
      cases nd with
      | file bs =>
        rw [resolve_get_file hget 39] at hopen
        cases hopen
      | dir =>
        rw [resolve_get_dir hget 39] at hopen
        cases hopen
      | symlink t =>
        obtain ⟨nd2, hnd2, hnl⟩ := hshape t hget
        rw [resolve_get_link hget 39] at hopen
        rw [resolve_get_nonlink hnd2 hnl 38] at hopen
        cases hopen

/-- Witness for C9: an existing key returns the handle with the empty
token; a missing key falls back to Create, whose token is valid. -/
theorem C9_createOrRead_witness :
    createOrRead ⟨"/r"⟩ ⟨[(pubPath "/r" (hashHex "k"),
        .symlink (stagedPath "/r" (hashHex "k") "1")),
      (stagedPath "/r" (hashHex "k") "1", .file [3])], ⟨0, 0⟩⟩ "k"
      = (⟨[(pubPath "/r" (hashHex "k"), .symlink (stagedPath "/r" (hashHex "k") "1")),
          (stagedPath "/r" (hashHex "k") "1", .file [3])], ⟨0, 0⟩⟩,
         .ok ("", (stagedPath "/r" (hashHex "k") "1", .file [3]))) ∧
    createOrRead ⟨"/r"⟩ ⟨[("/r", .dir)], ⟨0, 1⟩⟩ "k"
      = ((createOp ⟨"/r"⟩ ⟨[("/r", .dir)], ⟨0, 1⟩⟩ "k").1,
         .ok (hashTs "k" 1, (stagedPath "/r" (hashHex "k") (intHex 1), .file []))) ∧
    txValid (hashTs "k" 1) = true := by
  have h1 := ((C9_createOrRead "/r" "k" [(pubPath "/r" (hashHex "k"),
      .symlink (stagedPath "/r" (hashHex "k") "1")),
      (stagedPath "/r" (hashHex "k") "1", .file [3])] ⟨0, 0⟩).1
      (stagedPath "/r" (hashHex "k") "1", .file [3]) (by decide)).1
  have hcr : createOp ⟨"/r"⟩ ⟨[("/r", .dir)], ⟨0, 1⟩⟩ "k" =
      ((createOp ⟨"/r"⟩ ⟨[("/r", .dir)], ⟨0, 1⟩⟩ "k").1,
        .ok (hashTs "k" 1, stagedPath "/r" (hashHex "k") (intHex 1))) := by decide
  have h2 := ((C9_createOrRead "/r" "k" [("/r", .dir)] ⟨0, 1⟩).2.1
      (.notFound (pubPath "/r" (hashHex "k"))) (by decide)).2 _ _ _ hcr
  exact ⟨h1, h2.1, h2.2⟩

/-- C2 counterexample: Purge is fail-fast, but entries swept before the
malformed one are already acted on: here the expired entry `/c/aa/b.1`
(sorted before the malformed `/c/aa/z.`) is removed in the same sweep that
returns the MalformedEntry error, so "no entry is removed in the same
sweep, regardless of iteration order or age" is false. -/
theorem C2_counterexample :
    (purge ⟨"/c"⟩ ⟨[("/c", .dir), ("/c/aa", .dir), ("/c/aa/b.1", .file []),
        ("/c/aa/z.", .file [])], ⟨10, 0⟩⟩ 5).2 = .err (.malformed "/c/aa/z.") ∧
    Fs.get (purge ⟨"/c"⟩ ⟨[("/c", .dir), ("/c/aa", .dir), ("/c/aa/b.1", .file []),
        ("/c/aa/z.", .file [])], ⟨10, 0⟩⟩ 5).1.fs "/c/aa/b.1" = none ∧
    Fs.get [("/c", .dir), ("/c/aa", .dir), ("/c/aa/b.1", .file []),
        ("/c/aa/z.", .file [])] "/c/aa/b.1" = some (.file []) := by
  decide

theorem purgeEntries_frozen (clk : Clock) (older : Int) (fs : Fs) (es : List String)
    (h : ∀ e ∈ es, removeEntry clk fs e older = (fs, none) ∨
      removeEntry clk fs e older = (fs, some (.malformed e))) :
    (purgeEntries clk older fs es).1 = fs ∧
    ((purgeEntries clk older fs es).2 = none ∨
      ∃ e ∈ es, (purgeEntries clk older fs es).2 = some (.malformed e)) ∧
    ((∃ e ∈ es, removeEntry clk fs e older = (fs, some (.malformed e))) →
      ∃ e ∈ es, (purgeEntries clk older fs es).2 = some (.malformed e)) := by
  induction es with
  | nil =>
    refine ⟨rfl, Or.inl rfl, ?_⟩
    rintro ⟨e, he, _⟩
    cases he
  | cons e es ih =>
    have he := h e (by simp)
    rcases he with he | he
    · have hrest := ih (fun e2 h2 => h e2 (List.mem_cons_of_mem _ h2))
      have hred : purgeEntries clk older fs (e :: es) = purgeEntries clk older fs es := by
        show (match removeEntry clk fs e older with
          | (fs1, none) => purgeEntries clk older fs1 es
          | (fs1, some err) => (fs1, some err)) = _
        rw [he]
      rw [hred]
      refine ⟨hrest.1, ?_, ?_⟩
      · rcases hrest.2.1 with h2 | ⟨e2, he2, h2⟩
        · exact Or.inl h2
        · exact Or.inr ⟨e2, List.mem_cons_of_mem _ he2, h2⟩
      · rintro ⟨e2, he2, h2⟩
        rcases List.mem_cons.mp he2 with rfl | he3
        · rw [he] at h2
          cases h2
        · obtain ⟨e3, he4, h4⟩ := hrest.2.2 ⟨e2, he3, h2⟩
          exact ⟨e3, List.mem_cons_of_mem _ he4, h4⟩
    · have hred : purgeEntries clk older fs (e :: es) = (fs, some (.malformed e)) := by
        show (match removeEntry clk fs e older with
          | (fs1, none) => purgeEntries clk older fs1 es
          | (fs1, some err) => (fs1, some err)) = _
        rw [he]
      rw [hred]
      exact ⟨rfl, Or.inr ⟨e, by simp, rfl⟩, fun _ => ⟨e, by simp, rfl⟩⟩

theorem purgeParts_frozen (clk : Clock) (older : Int) (fs : Fs) (ps : List String)
    (h : ∀ p ∈ ps, ∀ e ∈ globF fs p,
      removeEntry clk fs e older = (fs, none) ∨
      removeEntry clk fs e older = (fs, some (.malformed e))) :
    (purgeParts clk older fs ps).1 = fs ∧
    ((purgeParts clk older fs ps).2 = none ∨
      ∃ e, (purgeParts clk older fs ps).2 = some (.malformed e)) ∧
    ((∃ p ∈ ps, ∃ e ∈ globF fs p,
        removeEntry clk fs e older = (fs, some (.malformed e))) →
      ∃ e, (purgeParts clk older fs ps).2 = some (.malformed e)) := by
  induction ps with
  | nil =>
    refine ⟨rfl, Or.inl rfl, ?_⟩
    rintro ⟨p, hp, _⟩
    cases hp
  | cons p ps ih =>
    have hent := purgeEntries_frozen clk older fs (globF fs p) (h p (by simp))
    have hrest := ih (fun p2 h2 => h p2 (List.mem_cons_of_mem _ h2))
    rcases hcase : (purgeEntries clk older fs (globF fs p)).2 with _ | err
    · have hred : purgeParts clk older fs (p :: ps) = purgeParts clk older fs ps := by
        show (match purgeEntries clk older fs (globF fs p) with
          | (fs1, none) => purgeParts clk older fs1 ps
          | (fs1, some err) => (fs1, some err)) = _
        rw [show purgeEntries clk older fs (globF fs p) = (fs, none) from
          Prod.ext hent.1 hcase]
      rw [hred]
      refine ⟨hrest.1, hrest.2.1, ?_⟩
      rintro ⟨p2, hp2, e2, he2, h2⟩
      rcases List.mem_cons.mp hp2 with rfl | hp3
      · obtain ⟨e3, he3, h3⟩ := hent.2.2 ⟨e2, he2, h2⟩
        rw [hcase] at h3
        cases h3
      · exact hrest.2.2 ⟨p2, hp3, e2, he2, h2⟩
    · have hred : purgeParts clk older fs (p :: ps) = (fs, some err) := by
        show (match purgeEntries clk older fs (globF fs p) with
          | (fs1, none) => purgeParts clk older fs1 ps
          | (fs1, some err) => (fs1, some err)) = _
        rw [show purgeEntries clk older fs (globF fs p) = (fs, some err) from
          Prod.ext hent.1 hcase]
      rw [hred]
      have herr : ∃ e, err = .malformed e := by
        rcases hent.2.1 with h2 | ⟨e2, _, h2⟩
        · rw [hcase] at h2
          cases h2
        · rw [hcase] at h2
          cases h2
          exact ⟨e2, rfl⟩
      obtain ⟨e2, rfl⟩ := herr
      exact ⟨rfl, Or.inr ⟨e2, rfl⟩, fun _ => ⟨e2, rfl⟩⟩

/-- C2 amended: if some partition contains an entry whose timestamp suffix
fails to parse, and no other suffixed entry in the sweep is expired (so
nothing earlier in the sweep order is removed first), then Purge returns a
MalformedEntry error and leaves the whole filesystem exactly as it was.
Without the no-other-expired proviso the original claim is false: an
expired entry sorted before the malformed one is removed in the same sweep
(see the counterexample). -/
theorem C2_purge_failfast (c : Cache) (st : St) (older : Int)
    (hskip : ∀ p ∈ globF st.fs c.root, ∀ e ∈ globF st.fs p,
      removeEntry st.clk st.fs e older = (st.fs, none) ∨
      removeEntry st.clk st.fs e older = (st.fs, some (.malformed e)))
    (hmal : ∃ p ∈ globF st.fs c.root, ∃ e ∈ globF st.fs p,
      removeEntry st.clk st.fs e older = (st.fs, some (.malformed e))) :
    (purge c st older).1 = st ∧
    ∃ e, (purge c st older).2 = .err (.malformed e) := by
  have hp := purgeParts_frozen st.clk older st.fs (globF st.fs c.root) hskip
  obtain ⟨e, he⟩ := hp.2.2 hmal
  have hpurge : purge c st older = (st, .err (.malformed e)) := by
    unfold purge
    rw [show purgeParts st.clk older st.fs (globF st.fs c.root)
      = (st.fs, some (.malformed e)) from Prod.ext hp.1 he]
  rw [hpurge]
  exact ⟨rfl, e, rfl⟩

/-- Witness for the amended C2. -/
theorem C2_purge_failfast_witness :
    (purge ⟨"/c"⟩ ⟨[("/c", .dir), ("/c/aa", .dir), ("/c/aa/z.", .file [])],
      ⟨10, 0⟩⟩ 5).1 = ⟨[("/c", .dir), ("/c/aa", .dir), ("/c/aa/z.", .file [])],
      ⟨10, 0⟩⟩ ∧
    ∃ e, (purge ⟨"/c"⟩ ⟨[("/c", .dir), ("/c/aa", .dir), ("/c/aa/z.", .file [])],
      ⟨10, 0⟩⟩ 5).2 = .err (.malformed e) :=
  C2_purge_failfast ⟨"/c"⟩
    ⟨[("/c", .dir), ("/c/aa", .dir), ("/c/aa/z.", .file [])], ⟨10, 0⟩⟩ 5
    (by decide) (by decide)

/-- C5: under the fake clock (which advances one second per clock read, so
two seconds per `WriteFile`), writing `"hello"`, `"world"`, `"in"`,
`"2021"` in that order and then calling `Purge(3.5 s)` removes the entries
for `"hello"` and `"world"` and retains those for `"in"` and `"2021"`
(`IfExists` returns the empty string for the first two and the published
path for the last two).  The final two conjuncts pin the inclusive
eviction boundary of `removeEntry`: an entry whose age equals `maxAge`
exactly is removed (`now - ts = 5 ≥ 5`), while one second younger than the
threshold it is retained (`5 < 6`). -/
theorem C5_purge_boundary :
    (let res := purge ⟨"/r"⟩ (writeFile ⟨"/r"⟩ (writeFile ⟨"/r"⟩ (writeFile ⟨"/r"⟩
        (writeFile ⟨"/r"⟩ ⟨[("/r", .dir)], ⟨0, 1000000000⟩⟩ "hello" [104]).1
        "world" [119]).1 "in" [105]).1 "2021" [50]).1 3500000000
     res.2 = .ok () ∧
     ifExists ⟨"/r"⟩ res.1 "hello" = "" ∧
     ifExists ⟨"/r"⟩ res.1 "world" = "" ∧
     ifExists ⟨"/r"⟩ res.1 "in" = pubPath "/r" (hashHex "in") ∧
     ifExists ⟨"/r"⟩ res.1 "2021" = pubPath "/r" (hashHex "2021")) ∧
    removeEntry ⟨6, 0⟩ [("/c", .dir), ("/c/aa", .dir), ("/c/aa/b.1", .file [])]
      "/c/aa/b.1" 5 = ([("/c", .dir), ("/c/aa", .dir)], none) ∧
    removeEntry ⟨6, 0⟩ [("/c", .dir), ("/c/aa", .dir), ("/c/aa/b.1", .file [])]
      "/c/aa/b.1" 6
      = ([("/c", .dir), ("/c/aa", .dir), ("/c/aa/b.1", .file [])], none) := by
  decide

theorem hashTs_eq (key : String) (now : Int) :
    hashTs key now = hashHex key ++ "." ++ intHex now := rfl

theorem strTake_hashTs (key : String) (now : Int) :
    strTake (hashTs key now) 2 = strTake (hashHex key) 2 := by
  rw [hashTs_eq, String.append_assoc]
  exact strTake_append (by rw [hashHex_len]; omega)

theorem mkdirF_exists {fs : Fs} {p : String} (h : (fs.get p).isSome) :
    mkdirF fs p = .error (.already p) := by
  unfold mkdirF
  rw [if_pos h]

theorem mkdirF_fresh {fs : Fs} {p : String} (h1 : fs.get p = none)
    (h2 : fs.get (parentOf p) = some .dir) :
    mkdirF fs p = .ok (fs.insert p .dir) := by
  unfold mkdirF
  rw [h1]
  rw [if_neg (by simp)]
  rw [h2]

theorem nameRes_of_none {fs : Fs} {p : String} (h : fs.get p = none) (fuel : Nat) :
    nameRes fs (fuel + 1) p = some p := by
  show (match fs.get p with
    | some (.symlink t) => nameRes fs fuel t
    | _ => some p) = some p
  rw [h]

theorem createF_fresh {fs : Fs} {p : String} (h1 : fs.get p = none)
    (h2 : fs.get (parentOf p) = some .dir) :
    createF fs p = .ok (p, fs.insert p (.file [])) := by
  unfold createF
  rw [show nameRes fs 40 p = some p from nameRes_of_none h1 39]
  dsimp only
  rw [h2, h1]

theorem strTake_hashHex_noSlash (key : String) :
    ∀ c ∈ (strTake (hashHex key) 2).data, c ≠ '/' :=
  fun c hc => (hashHex_noDotSlash key c (strTake_mem hc)).2

theorem parentOf_pdir (r key : String) :
    parentOf (pjoin r (strTake (hashHex key) 2)) = r := by
  unfold pjoin
  exact parentOf_pjoin r _ (strTake_hashHex_noSlash key)

theorem hashTs_as_dotext (key : String) (now : Int) :
    ∀ c ∈ (hashTs key now).data, c ≠ '/' := hashTs_noSlash key now

theorem parentOf_stagedPath (r key : String) (now : Int) :
    parentOf (pjoin3 r (strTake (hashHex key) 2) (hashTs key now))
      = pjoin r (strTake (hashHex key) 2) := by
  rw [show pjoin3 r (strTake (hashHex key) 2) (hashTs key now)
    = pjoin r (strTake (hashHex key) 2) ++ "/" ++ hashTs key now from rfl]
  exact parentOf_pjoin _ _ (hashTs_noSlash key now)

theorem stagedPath_ne_pdir (r key : String) (now : Int) :
    pjoin3 r (strTake (hashHex key) 2) (hashTs key now)
      ≠ pjoin r (strTake (hashHex key) 2) := by
  rw [show pjoin3 r (strTake (hashHex key) 2) (hashTs key now)
    = pjoin r (strTake (hashHex key) 2) ++ "/" ++ hashTs key now from rfl]
  exact fun h => string_ne_pjoin _ _ h.symm

/-- Characterization of a successful `Create` on a state where the staged
name is fresh and the partition directory exists or can be created. -/
theorem createOp_fresh (r key : String) (fs : Fs) (clk : Clock)
    (hpd : fs.get (pjoin r (strTake (hashHex key) 2)) = some .dir ∨
      (fs.get (pjoin r (strTake (hashHex key) 2)) = none ∧ fs.get r = some .dir))
    (hstaged : fs.get (stagedPath r (hashHex key) (intHex (clk.cur + clk.step))) = none) :
    ∃ fs1 : Fs,
      (fs1 = fs ∨ fs1 = fs.insert (pjoin r (strTake (hashHex key) 2)) .dir) ∧
      fs1.get (pjoin r (strTake (hashHex key) 2)) = some .dir ∧
      createOp ⟨r⟩ ⟨fs, clk⟩ key =
        (⟨fs1.insert (stagedPath r (hashHex key) (intHex (clk.cur + clk.step)))
            (.file []), ⟨clk.cur + clk.step, clk.step⟩⟩,
         .ok (hashTs key (clk.cur + clk.step),
           stagedPath r (hashHex key) (intHex (clk.cur + clk.step)))) := by
  have hstaged' : fs.get (pjoin3 r (strTake (hashHex key) 2)
      (hashTs key (clk.cur + clk.step))) = none := hstaged
  rcases hpd with hpd | ⟨hpd, hroot⟩
  · refine ⟨fs, Or.inl rfl, hpd, ?_⟩
    have hpfk : pathForKey ⟨r⟩ ⟨fs, clk⟩ key =
        (⟨fs, ⟨clk.cur + clk.step, clk.step⟩⟩,
          .ok (pjoin3 r (strTake (hashHex key) 2) (hashTs key (clk.cur + clk.step)))) := by
      unfold pathForKey
      dsimp only [Clock.now]
      rw [strTake_hashTs]
      rw [mkdirF_exists (by rw [hpd]; rfl)]
      dsimp only [isExistE]
      rw [if_pos rfl]
    unfold createOp
    rw [hpfk]
    dsimp only
    rw [createF_fresh hstaged' (by rw [parentOf_stagedPath]; exact hpd)]
    dsimp only
    rw [show baseOf (pjoin3 r (strTake (hashHex key) 2) (hashTs key (clk.cur + clk.step)))
      = hashTs key (clk.cur + clk.step) from
        baseOf_pjoin _ _ (hashTs_noSlash key _)]
    rfl
  · refine ⟨fs.insert (pjoin r (strTake (hashHex key) 2)) .dir, Or.inr rfl,
      by rw [Fs.get_insert, if_pos rfl], ?_⟩
    have hpfk : pathForKey ⟨r⟩ ⟨fs, clk⟩ key =
        (⟨fs.insert (pjoin r (strTake (hashHex key) 2)) .dir,
          ⟨clk.cur + clk.step, clk.step⟩⟩,
          .ok (pjoin3 r (strTake (hashHex key) 2) (hashTs key (clk.cur + clk.step)))) := by
      unfold pathForKey
      dsimp only [Clock.now]
      rw [strTake_hashTs]
      rw [mkdirF_fresh hpd (by rw [parentOf_pdir]; exact hroot)]
    unfold createOp
    rw [hpfk]
    dsimp only
    rw [createF_fresh ?hg ?hp]
    case hg =>
      rw [Fs.get_insert, if_neg (stagedPath_ne_pdir r key _)]
      exact hstaged'
    case hp =>
      rw [parentOf_stagedPath, Fs.get_insert, if_pos rfl]
    dsimp only
    rw [show baseOf (pjoin3 r (strTake (hashHex key) 2) (hashTs key (clk.cur + clk.step)))
      = hashTs key (clk.cur + clk.step) from
        baseOf_pjoin _ _ (hashTs_noSlash key _)]
    rfl

/-- C6: for every key and every byte payload (including the empty payload),
a WriteFile followed by ReadFile returns exactly the written bytes.  The
hypotheses are the reachable-state side conditions under which WriteFile
succeeds cleanly: the staged and temporary names minted from the clock are
fresh, the partition directory exists or the root does, any previous
pointer targets a distinct previous generation, and the two clock reads
yield distinct timestamps (a monotone clock).  The theorem concludes both
that WriteFile succeeds and that ReadFile then returns the payload. -/
theorem C6_write_read_roundtrip (r key : String) (data : List Nat) (fs : Fs) (clk : Clock)
    (hpd : fs.get (pjoin r (strTake (hashHex key) 2)) = some .dir ∨
      (fs.get (pjoin r (strTake (hashHex key) 2)) = none ∧ fs.get r = some .dir))
    (hstaged : fs.get (stagedPath r (hashHex key) (intHex (clk.cur + clk.step))) = none)
    (hpub : fs.get (pubPath r (hashHex key)) = none ∨
      ∃ t, fs.get (pubPath r (hashHex key)) = some (.symlink t) ∧
        underB (stagedPath r (hashHex key) (intHex (clk.cur + clk.step))) t = false ∧
        underB (pubPath r (hashHex key)) t = false)
    (htmp : fs.get (pubPath r (hashHex key) ++ "."
      ++ intHex (clk.cur + clk.step + clk.step)) = none)
    (htmpch : fs.hasChild (pubPath r (hashHex key) ++ "."
      ++ intHex (clk.cur + clk.step + clk.step)) = false)
    (hts : intHex (clk.cur + clk.step) ≠ intHex (clk.cur + clk.step + clk.step)) :
    (writeFile ⟨r⟩ ⟨fs, clk⟩ key data).2 = .ok () ∧
    readFileOp ⟨r⟩ (writeFile ⟨r⟩ ⟨fs, clk⟩ key data).1 key = .ok data := by
  obtain ⟨fs1, hfs1or, hfs1pd, hcreate⟩ := createOp_fresh r key fs clk hpd hstaged
  have hget1 : ∀ q, q ≠ pjoin r (strTake (hashHex key) 2) → fs1.get q = fs.get q := by
    intro q hq
    rcases hfs1or with rfl | rfl
    · rfl
    · rw [Fs.get_insert, if_neg hq]
  have hne_staged_pdir : stagedPath r (hashHex key) (intHex (clk.cur + clk.step))
      ≠ pjoin r (strTake (hashHex key) 2) := stagedPath_ne_pdir r key _
  have hne_pub_pdir : pubPath r (hashHex key) ≠ pjoin r (strTake (hashHex key) 2) := by
    rw [pubPath_eq_pjoin]
    exact fun h => string_ne_pjoin _ _ h.symm
  have hne_tmp_pdir : pubPath r (hashHex key) ++ "."
      ++ intHex (clk.cur + clk.step + clk.step) ≠ pjoin r (strTake (hashHex key) 2) := by
    rw [tmp_as_pjoin]
    exact fun h => string_ne_pjoin _ _ h.symm
  have hne_staged_pub : stagedPath r (hashHex key) (intHex (clk.cur + clk.step))
      ≠ pubPath r (hashHex key) := by
    rw [stagedPath_eq]
    exact fun h => string_ne_dotext _ _ h.symm
  have hne_staged_tmp : stagedPath r (hashHex key) (intHex (clk.cur + clk.step))
      ≠ pubPath r (hashHex key) ++ "." ++ intHex (clk.cur + clk.step + clk.step) := by
    rw [stagedPath_eq]
    exact fun h => hts (append_dot_cancel h)
  -- the state after Create and the write
  have hnd3 : Fs.get (setContent (fs1.insert
      (stagedPath r (hashHex key) (intHex (clk.cur + clk.step))) (.file []))
      (stagedPath r (hashHex key) (intHex (clk.cur + clk.step))) data)
      (stagedPath r (hashHex key) (intHex (clk.cur + clk.step)))
      = some (.file data) := by
    unfold setContent
    rw [Fs.get_insert, if_pos rfl]
  have hget3 : ∀ q, q ≠ stagedPath r (hashHex key) (intHex (clk.cur + clk.step)) →
      Fs.get (setContent (fs1.insert
        (stagedPath r (hashHex key) (intHex (clk.cur + clk.step))) (.file []))
        (stagedPath r (hashHex key) (intHex (clk.cur + clk.step))) data) q
      = fs1.get q := by
    intro q hq
    unfold setContent
    rw [Fs.get_insert, if_neg hq, Fs.get_insert, if_neg hq]
  have hpart3 : Fs.get (setContent (fs1.insert
      (stagedPath r (hashHex key) (intHex (clk.cur + clk.step))) (.file []))
      (stagedPath r (hashHex key) (intHex (clk.cur + clk.step))) data)
      (pjoin r (strTake (hashHex key) 2)) = some .dir := by
    rw [hget3 _ (fun h => hne_staged_pdir h.symm)]
    exact hfs1pd
  have htmp3 : Fs.get (setContent (fs1.insert
      (stagedPath r (hashHex key) (intHex (clk.cur + clk.step))) (.file []))
      (stagedPath r (hashHex key) (intHex (clk.cur + clk.step))) data)
      (pubPath r (hashHex key) ++ "." ++ intHex (clk.cur + clk.step + clk.step))
      = none := by
    rw [hget3 _ (fun h => hne_staged_tmp h.symm), hget1 _ hne_tmp_pdir]
    exact htmp
  have hpre_staged : strHasPre (stagedPath r (hashHex key) (intHex (clk.cur + clk.step)))
      (pubPath r (hashHex key) ++ "." ++ intHex (clk.cur + clk.step + clk.step) ++ "/")
      = false := by
    rw [stagedPath_eq]
    exact strHasPre_dot_dot _ _ _ (fun c hc => (intHex_noDotSlash _ c hc).2)
  have hpre_pdir : strHasPre (pjoin r (strTake (hashHex key) 2))
      (pubPath r (hashHex key) ++ "." ++ intHex (clk.cur + clk.step + clk.step) ++ "/")
      = false := by
    apply strHasPre_slash_len
    rw [show pubPath r (hashHex key) ++ "." ++ intHex (clk.cur + clk.step + clk.step)
      = pjoin r (strTake (hashHex key) 2) ++ "/"
        ++ (hashHex key ++ "." ++ intHex (clk.cur + clk.step + clk.step)) from
      tmp_as_pjoin r (hashHex key) _]
    rw [append_slash_data]
    simp
  have hch1 : fs1.hasChild (pubPath r (hashHex key) ++ "."
      ++ intHex (clk.cur + clk.step + clk.step)) = false := by
    rcases hfs1or with rfl | rfl
    · exact htmpch
    · exact Fs.hasChild_insert_false htmpch hpre_pdir
  have hch3 : (setContent (fs1.insert
      (stagedPath r (hashHex key) (intHex (clk.cur + clk.step))) (.file []))
      (stagedPath r (hashHex key) (intHex (clk.cur + clk.step))) data).hasChild
      (pubPath r (hashHex key) ++ "." ++ intHex (clk.cur + clk.step + clk.step))
      = false := by
    unfold setContent
    exact Fs.hasChild_insert_false (Fs.hasChild_insert_false hch1 hpre_staged) hpre_staged
  have hpub3 : Fs.get (setContent (fs1.insert
      (stagedPath r (hashHex key) (intHex (clk.cur + clk.step))) (.file []))
      (stagedPath r (hashHex key) (intHex (clk.cur + clk.step))) data)
      (pubPath r (hashHex key)) = fs.get (pubPath r (hashHex key)) := by
    rw [hget3 _ (fun h => hne_staged_pub h.symm), hget1 _ hne_pub_pdir]
  have hdest3 : Fs.get (setContent (fs1.insert
      (stagedPath r (hashHex key) (intHex (clk.cur + clk.step))) (.file []))
      (stagedPath r (hashHex key) (intHex (clk.cur + clk.step))) data)
      (pubPath r (hashHex key)) = none ∨
      ∃ t, Fs.get (setContent (fs1.insert
        (stagedPath r (hashHex key) (intHex (clk.cur + clk.step))) (.file []))
        (stagedPath r (hashHex key) (intHex (clk.cur + clk.step))) data)
        (pubPath r (hashHex key)) = some (.symlink t) := by
    rw [hpub3]
    rcases hpub with h | ⟨t, h, _, _⟩
    · exact Or.inl h
    · exact Or.inr ⟨t, h⟩
  obtain ⟨hok, hclk2, G⟩ := commit_spec r (hashHex key) (intHex (clk.cur + clk.step))
    (setContent (fs1.insert
      (stagedPath r (hashHex key) (intHex (clk.cur + clk.step))) (.file []))
      (stagedPath r (hashHex key) (intHex (clk.cur + clk.step))) data)
    ⟨clk.cur + clk.step, clk.step⟩ (.file data)
    (by rw [hashHex_len]; omega)
    (fun c hc => (hashHex_noDotSlash key c hc).2)
    (fun c hc => intHex_noDotSlash _ c hc)
    hnd3 (by intro t; simp) hpart3 htmp3 hch3 hdest3
  -- the old-target conditions are false at the pointer and the staged object
  have hold_eq : oldTargetOf (setContent (fs1.insert
      (stagedPath r (hashHex key) (intHex (clk.cur + clk.step))) (.file []))
      (stagedPath r (hashHex key) (intHex (clk.cur + clk.step))) data)
      (pubPath r (hashHex key))
      = oldTargetOf fs (pubPath r (hashHex key)) := by
    unfold oldTargetOf
    rw [hpub3]
  have holdpub : ¬ (oldTargetOf (setContent (fs1.insert
      (stagedPath r (hashHex key) (intHex (clk.cur + clk.step))) (.file []))
      (stagedPath r (hashHex key) (intHex (clk.cur + clk.step))) data)
      (pubPath r (hashHex key)) ≠ "" ∧
      underB (pubPath r (hashHex key)) (oldTargetOf (setContent (fs1.insert
        (stagedPath r (hashHex key) (intHex (clk.cur + clk.step))) (.file []))
        (stagedPath r (hashHex key) (intHex (clk.cur + clk.step))) data)
        (pubPath r (hashHex key))) = true) := by
    rw [hold_eq]
    rcases hpub with h | ⟨t, h, _, hu2⟩
    · rw [show oldTargetOf fs (pubPath r (hashHex key)) = "" by unfold oldTargetOf; rw [h]]
      exact fun hc => hc.1 rfl
    · rw [show oldTargetOf fs (pubPath r (hashHex key)) = t by unfold oldTargetOf; rw [h]]
      rw [hu2]
      exact fun hc => by cases hc.2
  have holdstaged : ¬ (oldTargetOf (setContent (fs1.insert
      (stagedPath r (hashHex key) (intHex (clk.cur + clk.step))) (.file []))
      (stagedPath r (hashHex key) (intHex (clk.cur + clk.step))) data)
      (pubPath r (hashHex key)) ≠ "" ∧
      underB (stagedPath r (hashHex key) (intHex (clk.cur + clk.step)))
        (oldTargetOf (setContent (fs1.insert
        (stagedPath r (hashHex key) (intHex (clk.cur + clk.step))) (.file []))
        (stagedPath r (hashHex key) (intHex (clk.cur + clk.step))) data)
        (pubPath r (hashHex key))) = true) := by
    rw [hold_eq]
    rcases hpub with h | ⟨t, h, hu1, _⟩
    · rw [show oldTargetOf fs (pubPath r (hashHex key)) = "" by unfold oldTargetOf; rw [h]]
      exact fun hc => hc.1 rfl
    · rw [show oldTargetOf fs (pubPath r (hashHex key)) = t by unfold oldTargetOf; rw [h]]
      rw [hu1]
      exact fun hc => by cases hc.2
  have hgp := G (pubPath r (hashHex key))
  rw [if_neg holdpub, if_pos rfl] at hgp
  have hgs := G (stagedPath r (hashHex key) (intHex (clk.cur + clk.step)))
  rw [if_neg holdstaged, if_neg hne_staged_pub, if_neg hne_staged_tmp] at hgs
  rw [hnd3] at hgs
  -- assemble writeFile
  have hwf : writeFile ⟨r⟩ ⟨fs, clk⟩ key data =
      ((commit ⟨r⟩ ⟨setContent (fs1.insert
          (stagedPath r (hashHex key) (intHex (clk.cur + clk.step))) (.file []))
          (stagedPath r (hashHex key) (intHex (clk.cur + clk.step))) data,
        ⟨clk.cur + clk.step, clk.step⟩⟩
        (hashHex key ++ "." ++ intHex (clk.cur + clk.step))).1, .ok ()) := by
    unfold writeFile
    rw [hcreate]
    dsimp only
    rw [hashTs_eq]
    rw [show commit ⟨r⟩ ⟨setContent (fs1.insert
        (stagedPath r (hashHex key) (intHex (clk.cur + clk.step))) (.file []))
        (stagedPath r (hashHex key) (intHex (clk.cur + clk.step))) data,
      ⟨clk.cur + clk.step, clk.step⟩⟩
      (hashHex key ++ "." ++ intHex (clk.cur + clk.step)) =
      ((commit ⟨r⟩ ⟨setContent (fs1.insert
          (stagedPath r (hashHex key) (intHex (clk.cur + clk.step))) (.file []))
          (stagedPath r (hashHex key) (intHex (clk.cur + clk.step))) data,
        ⟨clk.cur + clk.step, clk.step⟩⟩
        (hashHex key ++ "." ++ intHex (clk.cur + clk.step))).1,
        .ok (pubPath r (hashHex key))) from Prod.ext rfl hok]
  constructor
  · rw [hwf]
  · rw [hwf]
    dsimp only [readFileOp]
    have h40 : resolve (commit ⟨r⟩ ⟨setContent (fs1.insert
        (stagedPath r (hashHex key) (intHex (clk.cur + clk.step))) (.file []))
        (stagedPath r (hashHex key) (intHex (clk.cur + clk.step))) data,
      ⟨clk.cur + clk.step, clk.step⟩⟩
      (hashHex key ++ "." ++ intHex (clk.cur + clk.step))).1.fs 40
        (pjoin3 r (strTake (hashHex key) 2) (hashHex key))
        = resolve (commit ⟨r⟩ ⟨setContent (fs1.insert
          (stagedPath r (hashHex key) (intHex (clk.cur + clk.step))) (.file []))
          (stagedPath r (hashHex key) (intHex (clk.cur + clk.step))) data,
        ⟨clk.cur + clk.step, clk.step⟩⟩
        (hashHex key ++ "." ++ intHex (clk.cur + clk.step))).1.fs 39
          (stagedPath r (hashHex key) (intHex (clk.cur + clk.step))) :=
      resolve_get_link hgp 39
    have h39 : resolve (commit ⟨r⟩ ⟨setContent (fs1.insert
        (stagedPath r (hashHex key) (intHex (clk.cur + clk.step))) (.file []))
        (stagedPath r (hashHex key) (intHex (clk.cur + clk.step))) data,
      ⟨clk.cur + clk.step, clk.step⟩⟩
      (hashHex key ++ "." ++ intHex (clk.cur + clk.step))).1.fs 39
        (stagedPath r (hashHex key) (intHex (clk.cur + clk.step)))
        = .ok (stagedPath r (hashHex key) (intHex (clk.cur + clk.step)), .file data) :=
      resolve_get_file hgs 38
    rw [h40, h39]

/-- Witness for C6 on an empty cache (root directory only). -/
theorem C6_write_read_roundtrip_witness :
    (writeFile ⟨"/r"⟩ ⟨[("/r", .dir)], ⟨0, 1⟩⟩ "k" [9, 8]).2 = .ok () ∧
    readFileOp ⟨"/r"⟩ (writeFile ⟨"/r"⟩ ⟨[("/r", .dir)], ⟨0, 1⟩⟩ "k" [9, 8]).1 "k"
      = .ok [9, 8] :=
  C6_write_read_roundtrip "/r" "k" [9, 8] [("/r", .dir)] ⟨0, 1⟩
    (Or.inr ⟨by decide, by decide⟩) (by decide) (Or.inl (by decide))
    (by decide) (by decide) (by decide)

theorem listLtB_append_same (x y z : List Char) :
    listLtB (x ++ y) (x ++ z) = listLtB y z := by
  induction x with
  | nil => rfl
  | cons a as ih =>
    show listLtB (a :: (as ++ y)) (a :: (as ++ z)) = _
    rw [listLtB]
    rw [if_neg (by omega), if_neg (by omega)]
    exact ih

theorem listLtB_self_append {z : List Char} (h : z ≠ []) (x : List Char) :
    listLtB x (x ++ z) = true := by
  induction x with
  | nil =>
    cases z with
    | nil => exact absurd rfl h
    | cons c cs => rfl
  | cons a as ih =>
    show listLtB (a :: as) (a :: (as ++ z)) = true
    rw [listLtB]
    rw [if_neg (by omega), if_neg (by omega)]
    exact ih

theorem elem_slash_false {l : List Char} (h : ∀ c ∈ l, isHexDigitB c = true) :
    l.elem '/' = false := by
  induction l with
  | nil => rfl
  | cons a as ih =>
    show (match ('/' == a : Bool) with
      | true => true
      | false => as.elem '/') = false
    rw [show (('/' == a : Bool)) = false from
      beq_eq_false_iff_ne.mpr (fun he => isHex_ne_slash a (h a (by simp)) he.symm)]
    exact ih (fun c hc => h c (by simp [hc]))

theorem removeEntry_noext (clk : Clock) (older : Int) (entry : String)
    (h : goExt entry = "") : ∀ fs0 : Fs, removeEntry clk fs0 entry older = (fs0, none) := by
  intro fs0
  unfold removeEntry
  rw [h]
  rfl

theorem removeEntry_young (clk : Clock) (older : Int) (x suf : String) (n : Nat)
    (hsufc : ∀ c ∈ suf.data, c ≠ '.' ∧ c ≠ '/')
    (hscan : scanHex suf = some n)
    (hyoung : clk.since (Int.ofNat n) < older) :
    ∀ fs0 : Fs, removeEntry clk fs0 (x ++ "." ++ suf) older = (fs0, none) := by
  intro fs0
  unfold removeEntry
  rw [goExt_append_dot x suf hsufc]
  dsimp only
  rw [show (("." ++ suf == "") : Bool) = false from beq_eq_false_iff_ne.mpr
    (fun he => by
      have := string_eq_iff_data.mp he
      rw [String.data_append] at this
      cases this)]
  rw [if_neg (by simp)]
  rw [strTrimPre_dot, hscan]
  dsimp only
  rw [if_pos hyoung]

theorem removeEntry_expired (clk : Clock) (older : Int) (fs0 : Fs) (x suf t : String)
    (n : Nat)
    (hsufc : ∀ c ∈ suf.data, c ≠ '.' ∧ c ≠ '/')
    (hscan : scanHex suf = some n)
    (hexp : ¬ clk.since (Int.ofNat n) < older)
    (hptr : fs0.get x = some (.symlink t)) :
    removeEntry clk fs0 (x ++ "." ++ suf) older
      = ((fs0.erase x).removeAll (x ++ "." ++ suf), none) := by
  unfold removeEntry
  rw [goExt_append_dot x suf hsufc]
  dsimp only
  rw [show (("." ++ suf == "") : Bool) = false from beq_eq_false_iff_ne.mpr
    (fun he => by
      have := string_eq_iff_data.mp he
      rw [String.data_append] at this
      cases this)]
  rw [if_neg (by simp)]
  rw [strTrimPre_dot, hscan]
  dsimp only
  rw [if_neg hexp]
  rw [show strTrimSuf (x ++ "." ++ suf) ("." ++ suf) = x by
    rw [String.append_assoc]; exact strTrimSuf_append x _]
  rw [removeF_link hptr]

/-- C10: when an expired timestamp-suffixed StagedObject still exists on
disk while its key's PublishedPointer references a different, newer
StagedObject (a superseded generation whose best-effort deletion was
swallowed), Purge removes the live PublishedPointer — derived purely from
the expired entry's name — before deleting the expired object, leaving the
newer, unexpired object present on disk but unreachable by lookup (the
pointer path no longer resolves).  Stated for a representative digest
`"ab"` in partition `"ab"` under root `"/r"`, and for arbitrary hex
timestamp suffixes, timestamps, contents, clock and age threshold. -/
theorem C10_purge_pointer_unreachable (h1 h2 : String) (n1 n2 : Nat)
    (d1 d2 : List Nat) (fs : Fs) (clk : Clock) (older : Int)
    (hfs : fs = [("/r", .dir), ("/r/ab", .dir),
      ("/r/ab/ab", .symlink ("/r/ab/ab." ++ h2)),
      ("/r/ab/ab." ++ h1, .file d1), ("/r/ab/ab." ++ h2, .file d2)])
    (hx1 : ∀ c ∈ h1.data, isHexDigitB c = true)
    (hx2 : ∀ c ∈ h2.data, isHexDigitB c = true)
    (hne : h1 ≠ h2)
    (hsc1 : scanHex h1 = some n1) (hsc2 : scanHex h2 = some n2)
    (hexp : ¬ clk.since (Int.ofNat n1) < older)
    (hyoung : clk.since (Int.ofNat n2) < older) :
    (purge ⟨"/r"⟩ ⟨fs, clk⟩ older).2 = .ok () ∧
    Fs.get (purge ⟨"/r"⟩ ⟨fs, clk⟩ older).1.fs "/r/ab/ab" = none ∧
    Fs.get (purge ⟨"/r"⟩ ⟨fs, clk⟩ older).1.fs ("/r/ab/ab." ++ h1) = none ∧
    Fs.get (purge ⟨"/r"⟩ ⟨fs, clk⟩ older).1.fs ("/r/ab/ab." ++ h2)
      = some (.file d2) ∧
    resolve (purge ⟨"/r"⟩ ⟨fs, clk⟩ older).1.fs 40 "/r/ab/ab"
      = .error (.notFound "/r/ab/ab") := by
  subst hfs
  have hc1 : ∀ c ∈ h1.data, c ≠ '.' ∧ c ≠ '/' :=
    fun c hc => ⟨isHex_ne_dot c (hx1 c hc), isHex_ne_slash c (hx1 c hc)⟩
  have hc2 : ∀ c ∈ h2.data, c ≠ '.' ∧ c ≠ '/' :=
    fun c hc => ⟨isHex_ne_dot c (hx2 c hc), isHex_ne_slash c (hx2 c hc)⟩
  have hd1 : ("/r/ab/ab." ++ h1).data
      = '/' :: 'r' :: '/' :: 'a' :: 'b' :: '/' :: 'a' :: 'b' :: '.' :: h1.data := by
    rw [String.data_append]
    rfl
  have hd2 : ("/r/ab/ab." ++ h2).data
      = '/' :: 'r' :: '/' :: 'a' :: 'b' :: '/' :: 'a' :: 'b' :: '.' :: h2.data := by
    rw [String.data_append]
    rfl
  -- inequalities between the five paths
  have hne_r_s1 : "/r" ≠ "/r/ab/ab." ++ h1 := by
    intro h
    have := string_eq_iff_data.mp h
    rw [hd1] at this
    cases this
  have hne_r_s2 : "/r" ≠ "/r/ab/ab." ++ h2 := by
    intro h
    have := string_eq_iff_data.mp h
    rw [hd2] at this
    cases this
  have hne_ab_s1 : "/r/ab" ≠ "/r/ab/ab." ++ h1 := by
    intro h
    have := string_eq_iff_data.mp h
    rw [hd1] at this
    cases this
  have hne_ab_s2 : "/r/ab" ≠ "/r/ab/ab." ++ h2 := by
    intro h
    have := string_eq_iff_data.mp h
    rw [hd2] at this
    cases this
  have hne_ptr_s1 : "/r/ab/ab" ≠ "/r/ab/ab." ++ h1 :=
    string_ne_dotext "/r/ab/ab" h1
  have hne_ptr_s2 : "/r/ab/ab" ≠ "/r/ab/ab." ++ h2 :=
    string_ne_dotext "/r/ab/ab" h2
  have hne_s1_s2 : ("/r/ab/ab." ++ h1) ≠ ("/r/ab/ab." ++ h2) := by
    intro h
    exact hne (append_dot_cancel (p := "/r/ab/ab") h)
  -- lookups in the initial filesystem
  have hget_ptr : Fs.get [("/r", Node.dir), ("/r/ab", Node.dir),
      ("/r/ab/ab", Node.symlink ("/r/ab/ab." ++ h2)),
      ("/r/ab/ab." ++ h1, Node.file d1), ("/r/ab/ab." ++ h2, Node.file d2)]
      "/r/ab/ab" = some (.symlink ("/r/ab/ab." ++ h2)) := by
    rw [Fs.get_cons, if_neg (by decide), Fs.get_cons, if_neg (by decide),
      Fs.get_cons, if_pos rfl]
  have hget_s2 : Fs.get [("/r", Node.dir), ("/r/ab", Node.dir),
      ("/r/ab/ab", Node.symlink ("/r/ab/ab." ++ h2)),
      ("/r/ab/ab." ++ h1, Node.file d1), ("/r/ab/ab." ++ h2, Node.file d2)]
      ("/r/ab/ab." ++ h2) = some (.file d2) := by
    rw [Fs.get_cons, if_neg hne_r_s2, Fs.get_cons, if_neg hne_ab_s2,
      Fs.get_cons, if_neg hne_ptr_s2, Fs.get_cons, if_neg hne_s1_s2,
      Fs.get_cons, if_pos rfl]
  -- which names are direct children of which directory
  have hch_s1_r : isChildOf ("/r/ab/ab." ++ h1) "/r" = false := by
    simp [isChildOf, strHasPre, hd1, listLead, List.contains, List.elem]
  have hch_s2_r : isChildOf ("/r/ab/ab." ++ h2) "/r" = false := by
    simp [isChildOf, strHasPre, hd2, listLead, List.contains, List.elem]
  have hch_s1_ab : isChildOf ("/r/ab/ab." ++ h1) "/r/ab" = true := by
    simp [isChildOf, strHasPre, hd1, listLead, List.contains, List.elem]
    exact fun hmem => (hc1 '/' hmem).2 rfl
  have hch_s2_ab : isChildOf ("/r/ab/ab." ++ h2) "/r/ab" = true := by
    simp [isChildOf, strHasPre, hd2, listLead, List.contains, List.elem]
    exact fun hmem => (hc2 '/' hmem).2 rfl
  -- the two globs
  have hglob_r : globF [("/r", Node.dir), ("/r/ab", Node.dir),
      ("/r/ab/ab", Node.symlink ("/r/ab/ab." ++ h2)),
      ("/r/ab/ab." ++ h1, Node.file d1), ("/r/ab/ab." ++ h2, Node.file d2)]
      "/r" = ["/r/ab"] := by
    unfold globF
    simp only [List.map_cons, List.map_nil, List.filter_cons, List.filter_nil,
      hch_s1_r, hch_s2_r, show isChildOf "/r" "/r" = false from by decide,
      show isChildOf "/r/ab" "/r" = true from by decide,
      show isChildOf "/r/ab/ab" "/r" = false from by decide]
    simp [sortStrs, insSorted]
  have hfilter_ab : ([("/r", Node.dir), ("/r/ab", Node.dir),
      ("/r/ab/ab", Node.symlink ("/r/ab/ab." ++ h2)),
      ("/r/ab/ab." ++ h1, Node.file d1),
      ("/r/ab/ab." ++ h2, Node.file d2)].map (·.1)).filter
      (fun q => isChildOf q "/r/ab")
      = ["/r/ab/ab", "/r/ab/ab." ++ h1, "/r/ab/ab." ++ h2] := by
    simp only [List.map_cons, List.map_nil, List.filter_cons, List.filter_nil,
      hch_s1_ab, hch_s2_ab, show isChildOf "/r" "/r/ab" = false from by decide,
      show isChildOf "/r/ab" "/r/ab" = false from by decide,
      show isChildOf "/r/ab/ab" "/r/ab" = true from by decide]
    simp
  -- sorting facts
  have hlt_ptr_s1 : strLtB "/r/ab/ab" ("/r/ab/ab." ++ h1) = true := by
    rw [strLtB, show ("/r/ab/ab." ++ h1).data
      = "/r/ab/ab".data ++ '.' :: h1.data by rw [String.data_append]; rfl]
    exact listLtB_self_append (by simp) _
  have hlt_ptr_s2 : strLtB "/r/ab/ab" ("/r/ab/ab." ++ h2) = true := by
    rw [strLtB, show ("/r/ab/ab." ++ h2).data
      = "/r/ab/ab".data ++ '.' :: h2.data by rw [String.data_append]; rfl]
    exact listLtB_self_append (by simp) _
  have hlt_s12 : strLtB ("/r/ab/ab." ++ h1) ("/r/ab/ab." ++ h2)
      = listLtB h1.data h2.data := by
    rw [strLtB]
    rw [show ("/r/ab/ab." ++ h1).data = "/r/ab/ab.".data ++ h1.data
      by rw [String.data_append]]
    rw [show ("/r/ab/ab." ++ h2).data = "/r/ab/ab.".data ++ h2.data
      by rw [String.data_append]]
    exact listLtB_append_same _ _ _
  -- the per-entry effects of the sweep
  have he_ptr : ∀ fs0 : Fs, removeEntry clk fs0 "/r/ab/ab" older = (fs0, none) :=
    removeEntry_noext clk older "/r/ab/ab" (by decide)
  have he_s2 : ∀ fs0 : Fs,
      removeEntry clk fs0 ("/r/ab/ab." ++ h2) older = (fs0, none) :=
    removeEntry_young clk older "/r/ab/ab" h2 n2 hc2 hsc2 hyoung
  have he_s1 : removeEntry clk [("/r", Node.dir), ("/r/ab", Node.dir),
      ("/r/ab/ab", Node.symlink ("/r/ab/ab." ++ h2)),
      ("/r/ab/ab." ++ h1, Node.file d1), ("/r/ab/ab." ++ h2, Node.file d2)]
      ("/r/ab/ab." ++ h1) older
      = ((Fs.erase [("/r", Node.dir), ("/r/ab", Node.dir),
          ("/r/ab/ab", Node.symlink ("/r/ab/ab." ++ h2)),
          ("/r/ab/ab." ++ h1, Node.file d1),
          ("/r/ab/ab." ++ h2, Node.file d2)] "/r/ab/ab").removeAll
          ("/r/ab/ab." ++ h1), none) :=
    removeEntry_expired clk older _ "/r/ab/ab" h1 _ n1 hc1 hsc1 hexp hget_ptr
  -- the sweep over the partition's entries, in either sort order
  have hpe : purgeEntries clk older [("/r", Node.dir), ("/r/ab", Node.dir),
      ("/r/ab/ab", Node.symlink ("/r/ab/ab." ++ h2)),
      ("/r/ab/ab." ++ h1, Node.file d1), ("/r/ab/ab." ++ h2, Node.file d2)]
      (sortStrs ["/r/ab/ab", "/r/ab/ab." ++ h1, "/r/ab/ab." ++ h2])
      = ((Fs.erase [("/r", Node.dir), ("/r/ab", Node.dir),
          ("/r/ab/ab", Node.symlink ("/r/ab/ab." ++ h2)),
          ("/r/ab/ab." ++ h1, Node.file d1),
          ("/r/ab/ab." ++ h2, Node.file d2)] "/r/ab/ab").removeAll
          ("/r/ab/ab." ++ h1), none) := by
    cases hb : listLtB h1.data h2.data with
    | true =>
      have hsorted : sortStrs ["/r/ab/ab", "/r/ab/ab." ++ h1, "/r/ab/ab." ++ h2]
          = ["/r/ab/ab", "/r/ab/ab." ++ h1, "/r/ab/ab." ++ h2] := by
        show insSorted "/r/ab/ab" (insSorted ("/r/ab/ab." ++ h1)
          (insSorted ("/r/ab/ab." ++ h2) [])) = _
        rw [show insSorted ("/r/ab/ab." ++ h2) [] = ["/r/ab/ab." ++ h2] from rfl]
        rw [insSorted, hlt_s12, hb]
        rw [if_pos rfl]
        rw [insSorted, hlt_ptr_s1, if_pos rfl]
      rw [hsorted]
      show (match removeEntry clk _ "/r/ab/ab" older with
        | (fs1, none) => purgeEntries clk older fs1 _
        | (fs1, some err) => (fs1, some err)) = _
      rw [he_ptr]
      show (match removeEntry clk _ ("/r/ab/ab." ++ h1) older with
        | (fs1, none) => purgeEntries clk older fs1 _
        | (fs1, some err) => (fs1, some err)) = _
      rw [he_s1]
      show (match removeEntry clk _ ("/r/ab/ab." ++ h2) older with
        | (fs1, none) => purgeEntries clk older fs1 _
        | (fs1, some err) => (fs1, some err)) = _
      rw [he_s2]
      rfl
    | false =>
      have hsorted : sortStrs ["/r/ab/ab", "/r/ab/ab." ++ h1, "/r/ab/ab." ++ h2]
          = ["/r/ab/ab", "/r/ab/ab." ++ h2, "/r/ab/ab." ++ h1] := by
        show insSorted "/r/ab/ab" (insSorted ("/r/ab/ab." ++ h1)
          (insSorted ("/r/ab/ab." ++ h2) [])) = _
        rw [show insSorted ("/r/ab/ab." ++ h2) [] = ["/r/ab/ab." ++ h2] from rfl]
        rw [insSorted, hlt_s12, hb]
        rw [if_neg (by simp)]
        rw [show insSorted ("/r/ab/ab." ++ h1) [] = ["/r/ab/ab." ++ h1] from rfl]
        rw [insSorted, hlt_ptr_s2, if_pos rfl]
      rw [hsorted]
      show (match removeEntry clk _ "/r/ab/ab" older with
        | (fs1, none) => purgeEntries clk older fs1 _
        | (fs1, some err) => (fs1, some err)) = _
      rw [he_ptr]
      show (match removeEntry clk _ ("/r/ab/ab." ++ h2) older with
        | (fs1, none) => purgeEntries clk older fs1 _
        | (fs1, some err) => (fs1, some err)) = _
      rw [he_s2]
      show (match removeEntry clk _ ("/r/ab/ab." ++ h1) older with
        | (fs1, none) => purgeEntries clk older fs1 _
        | (fs1, some err) => (fs1, some err)) = _
      rw [he_s1]
      rfl
  -- the whole purge
  have hpurge : purge ⟨"/r"⟩ ⟨[("/r", Node.dir), ("/r/ab", Node.dir),
      ("/r/ab/ab", Node.symlink ("/r/ab/ab." ++ h2)),
      ("/r/ab/ab." ++ h1, Node.file d1), ("/r/ab/ab." ++ h2, Node.file d2)], clk⟩
      older
      = (⟨(Fs.erase [("/r", Node.dir), ("/r/ab", Node.dir),
          ("/r/ab/ab", Node.symlink ("/r/ab/ab." ++ h2)),
          ("/r/ab/ab." ++ h1, Node.file d1),
          ("/r/ab/ab." ++ h2, Node.file d2)] "/r/ab/ab").removeAll
          ("/r/ab/ab." ++ h1), clk⟩, .ok ()) := by
    unfold purge
    dsimp only
    rw [hglob_r]
    show (match (match purgeEntries clk older _ (globF _ "/r/ab") with
      | (fs1, none) => purgeParts clk older fs1 []
      | (fs1, some err) => (fs1, some err)) with
      | (fs1, none) => _
      | (fs1, some e) => _) = _
    rw [show globF [("/r", Node.dir), ("/r/ab", Node.dir),
      ("/r/ab/ab", Node.symlink ("/r/ab/ab." ++ h2)),
      ("/r/ab/ab." ++ h1, Node.file d1), ("/r/ab/ab." ++ h2, Node.file d2)]
      "/r/ab" = sortStrs ["/r/ab/ab", "/r/ab/ab." ++ h1, "/r/ab/ab." ++ h2] by
        unfold globF
        rw [hfilter_ab]]
    rw [hpe]
    rfl
  -- the final-state facts
  have hu1 : underB "/r/ab/ab" ("/r/ab/ab." ++ h1) = false :=
    underB_dotext_left "/r/ab/ab" h1
  have hu2 : underB ("/r/ab/ab." ++ h2) ("/r/ab/ab." ++ h1) = false := by
    rw [underB]
    rw [show (("/r/ab/ab." ++ h2 == "/r/ab/ab." ++ h1) : Bool) = false from
      beq_eq_false_iff_ne.mpr (fun h => hne_s1_s2 h.symm)]
    rw [show strHasPre ("/r/ab/ab." ++ h2) ("/r/ab/ab." ++ h1 ++ "/") = false from
      strHasPre_dot_dot "/r/ab/ab" h1 h2 (fun c hc => (hc2 c hc).2)]
    rfl
  have hgetf_ptr : Fs.get ((Fs.erase [("/r", Node.dir), ("/r/ab", Node.dir),
      ("/r/ab/ab", Node.symlink ("/r/ab/ab." ++ h2)),
      ("/r/ab/ab." ++ h1, Node.file d1),
      ("/r/ab/ab." ++ h2, Node.file d2)] "/r/ab/ab").removeAll
      ("/r/ab/ab." ++ h1)) "/r/ab/ab" = none := by
    rw [Fs.get_removeAll, if_neg (by rw [hu1]; simp), Fs.get_erase, if_pos rfl]
  refine ⟨by rw [hpurge], ?_, ?_, ?_, ?_⟩
  · rw [hpurge]
    exact hgetf_ptr
  · rw [hpurge]
    show Fs.get _ _ = none
    rw [Fs.get_removeAll, if_pos (underB_self _)]
  · rw [hpurge]
    show Fs.get _ _ = some (.file d2)
    rw [Fs.get_removeAll, if_neg (by rw [hu2]; simp), Fs.get_erase,
      if_neg (fun h => hne_ptr_s2 h.symm)]
    exact hget_s2
  · rw [hpurge]
    exact resolve_get_none hgetf_ptr 39

/-- Witness for C10. -/
theorem C10_purge_pointer_unreachable_witness :
    (purge ⟨"/r"⟩ ⟨[("/r", .dir), ("/r/ab", .dir),
      ("/r/ab/ab", .symlink ("/r/ab/ab." ++ "3")),
      ("/r/ab/ab." ++ "1", .file [1]), ("/r/ab/ab." ++ "3", .file [2])],
      ⟨5, 0⟩⟩ 3).2 = .ok () ∧
    Fs.get (purge ⟨"/r"⟩ ⟨[("/r", .dir), ("/r/ab", .dir),
      ("/r/ab/ab", .symlink ("/r/ab/ab." ++ "3")),
      ("/r/ab/ab." ++ "1", .file [1]), ("/r/ab/ab." ++ "3", .file [2])],
      ⟨5, 0⟩⟩ 3).1.fs "/r/ab/ab" = none ∧
    Fs.get (purge ⟨"/r"⟩ ⟨[("/r", .dir), ("/r/ab", .dir),
      ("/r/ab/ab", .symlink ("/r/ab/ab." ++ "3")),
      ("/r/ab/ab." ++ "1", .file [1]), ("/r/ab/ab." ++ "3", .file [2])],
      ⟨5, 0⟩⟩ 3).1.fs ("/r/ab/ab." ++ "3") = some (.file [2]) := by
  have h := C10_purge_pointer_unreachable "1" "3" 1 3 [1] [2]
    [("/r", .dir), ("/r/ab", .dir), ("/r/ab/ab", .symlink ("/r/ab/ab." ++ "3")),
      ("/r/ab/ab." ++ "1", .file [1]), ("/r/ab/ab." ++ "3", .file [2])]
    ⟨5, 0⟩ 3 rfl (by decide) (by decide) (by decide) (by decide) (by decide)
    (by decide) (by decide)
  exact ⟨h.1, h.2.1, h.2.2.2.1⟩

end Localcache